import Mathlib

/-!
# HardwareMonitor driver: SMBus SPD acquisition

A shallow embedding of `SmbusReadSPD` and `ReadAllSPD` from
`src/HardwareMonitorDriver.cpp`.

The hardware is an environment that answers every interaction as a function of
the whole history of interactions so far (`Hw`).  The program threads that
history (`List Event`) through every port access, stall and physical-memory
read, appending one event per interaction, oldest first.

Machine integers are `Nat` with explicit `% 256` at every `UINT8`/`UCHAR`
conversion, and `Int` for the `int timeout` counters.
-/

namespace HardwareMonitor

/-! ## Hardware interactions -/

/-- One interaction of the driver with the machine. -/
inductive Event where
  | mem (physAddr size : Nat) (ok : Bool)
  | rd (port val : Nat)
  | wr (port val : Nat)
  | stall (us : Nat)
  deriving DecidableEq, Repr

/-- The machine as seen by the driver.  Each answer may depend on everything
that happened before.
* `physMem h a n`: the `n` bytes mapped at physical address `a` (little endian),
  or `none` when `MmMapIoSpace` returns a null mapping;
* `port h p`: the byte the device returns for a read of I/O port `p`;
* `stack h`: the content of a local `UINT8` that is declared without an
  initialiser. -/
structure Hw where
  physMem : List Event → Nat → Nat → Option Nat
  port : List Event → Nat → Nat
  stack : List Event → Nat

/-! ## Constants (lines 35-46) -/

def SMBUS_IO_BASE : Nat := 0x0400
def SMBHSTSTAT : Nat := 0
def SMBHSTCTL : Nat := 2
def SMBHSTCMD : Nat := 3
def SMBHSTADD : Nat := 4
def SMBHSTDAT0 : Nat := 5
def SMBHSTDAT1 : Nat := 6

def SMBHSTSTAT_BUSY : Nat := 1 <<< 0
def SMBHSTSTAT_INTR : Nat := 1 <<< 1
def SMBHSTSTAT_ERROR : Nat := 1 <<< 2

/-! ## Primitives -/

/-- `READ_PORT_UCHAR`: the byte returned and the extended history. -/
def READ_PORT_UCHAR (hw : Hw) (port : Nat) (t : List Event) : Nat × List Event :=
  (hw.port t port % 256, t ++ [Event.rd port (hw.port t port % 256)])

/-- `WRITE_PORT_UCHAR`: the value is converted to `UCHAR`. -/
def WRITE_PORT_UCHAR (port val : Nat) (t : List Event) : List Event :=
  t ++ [Event.wr port (val % 256)]

/-- `KeStallExecutionProcessor`. -/
def KeStallExecutionProcessor (us : Nat) (t : List Event) : List Event :=
  t ++ [Event.stall us]

/-- Result of `ReadPhysicalMemory`: status, content of the caller's buffer,
history. -/
structure MemResult where
  success : Bool
  buffer : Nat
  trace : List Event

/-- `ReadPhysicalMemory` (lines 100-112): on a failed mapping the caller's buffer
is left as it was. -/
def ReadPhysicalMemory (hw : Hw) (physAddr : Nat) (buffer : Nat) (size : Nat)
    (t : List Event) : MemResult :=
  match hw.physMem t physAddr size with
  | none => { success := false, buffer := buffer, trace := t ++ [Event.mem physAddr size false] }
  | some v =>
    { success := true, buffer := v % 2 ^ (8 * size),
      trace := t ++ [Event.mem physAddr size true] }

/-! ## `SmbusReadSPD` (lines 114-157) -/

/-- State at the exit of one of the two polling loops. -/
structure WaitResult where
  status : Nat
  timeout : Int
  trace : List Event

/-- Lines 126-129: `do { READ_PORT_UCHAR(..); KeStall(10); }
while (status & BUSY && --timeout > 0);`.  The value read is discarded and
`status` is never assigned in this loop. -/
def arbitrationWait (hw : Hw) (port : Nat) (status : Nat) (timeout : Int)
    (t : List Event) : WaitResult :=
  let r := READ_PORT_UCHAR hw port t
  let t2 := KeStallExecutionProcessor 10 r.2
  if status &&& SMBHSTSTAT_BUSY ≠ 0 then
    if h : timeout - 1 > 0 then arbitrationWait hw port status (timeout - 1) t2
    else { status := status, timeout := timeout - 1, trace := t2 }
  else { status := status, timeout := timeout, trace := t2 }
termination_by timeout.toNat
decreasing_by omega

/-- Lines 145-148: `do { status = READ_PORT_UCHAR(..); KeStall(10); }
while (!(status & (INTR | ERROR)) && --timeout > 0);`. -/
def completionWait (hw : Hw) (port : Nat) (timeout : Int) (t : List Event) : WaitResult :=
  let r := READ_PORT_UCHAR hw port t
  let t2 := KeStallExecutionProcessor 10 r.2
  if r.1 &&& (SMBHSTSTAT_INTR ||| SMBHSTSTAT_ERROR) = 0 then
    if h : timeout - 1 > 0 then completionWait hw port (timeout - 1) t2
    else { status := r.1, timeout := timeout - 1, trace := t2 }
  else { status := r.1, timeout := timeout, trace := t2 }
termination_by timeout.toNat
decreasing_by omega

/-- Result of one `SmbusReadSPD` call: the `BOOLEAN` returned, the content of
`*data` afterwards, the history. -/
structure ReadResult where
  ok : Bool
  data : Nat
  trace : List Event

/-- Lines 117-119: the controller base as resolved at the start of a call. -/
def smbusBase (hw : Hw) (t : List Event) : Nat :=
  (ReadPhysicalMemory hw SMBUS_IO_BASE 0 4 t).buffer &&& 0xFFFC

/-- History after the base has been resolved (line 118). -/
def afterResolve (hw : Hw) (t : List Event) : List Event :=
  (ReadPhysicalMemory hw SMBUS_IO_BASE 0 4 t).trace

/-- The arbitration wait as `SmbusReadSPD` runs it (lines 124-129): `status` holds
whatever the stack holds, `timeout` is 1000. -/
def arbitration (hw : Hw) (t : List Event) : WaitResult :=
  arbitrationWait hw (smbusBase hw t + SMBHSTSTAT) (hw.stack (afterResolve hw t) % 256) 1000
    (afterResolve hw t)

/-- Lines 134-141: the four register writes that set up and start a transaction. -/
def startTransaction (base dimmAddr offset : Nat) (t : List Event) : List Event :=
  let t1 := WRITE_PORT_UCHAR (base + SMBHSTSTAT) (SMBHSTSTAT_INTR ||| SMBHSTSTAT_ERROR) t
  let t2 := WRITE_PORT_UCHAR (base + SMBHSTADD) ((dimmAddr <<< 1) ||| 0x01) t1
  let t3 := WRITE_PORT_UCHAR (base + SMBHSTCMD) offset t2
  WRITE_PORT_UCHAR (base + SMBHSTCTL) 0x0C t3

/-- The completion wait as `SmbusReadSPD` runs it (lines 144-148). -/
def completion (hw : Hw) (dimmAddr offset : Nat) (t : List Event) : WaitResult :=
  completionWait hw (smbusBase hw t + SMBHSTSTAT) 1000
    (startTransaction (smbusBase hw t) dimmAddr offset (arbitration hw t).trace)

/-- `SmbusReadSPD(dimmAddr, offset, data)`; `data` is the content of the caller's
output byte before the call.  `dimmAddr` and `offset` are `UINT8`. -/
def SmbusReadSPD (hw : Hw) (dimmAddr offset data : Nat) (t : List Event) : ReadResult :=
  if smbusBase hw t = 0 then { ok := false, data := data, trace := afterResolve hw t }
  else if (arbitration hw t).timeout ≤ 0 then
    { ok := false, data := data, trace := (arbitration hw t).trace }
  else
    let c := completion hw dimmAddr offset t
    if c.status &&& SMBHSTSTAT_INTR = 0 ∨ c.status &&& SMBHSTSTAT_ERROR ≠ 0 then
      { ok := false, data := data, trace := c.trace }
    else
      let r := READ_PORT_UCHAR hw (smbusBase hw t + SMBHSTDAT0) c.trace
      { ok := true, data := r.1, trace := r.2 }

/-! ## `ReadAllSPD` (lines 159-192) -/

/-- `SPD_DATA` (lines 26-31).  `Data` has 512 entries; `Size` and `DIMMSlot` are
`UINT8`. -/
structure SPD_DATA where
  Data : List Nat
  Size : Nat
  DIMMSlot : Nat
  Valid : Bool
  deriving DecidableEq, Repr

/-- One finished `SmbusReadSPD` call: its arguments, the `BOOLEAN` it returned and
the content of the output byte afterwards. -/
structure Call where
  dimmAddr : Nat
  offset : Nat
  ok : Bool
  data : Nat
  deriving DecidableEq, Repr

/-- State threaded through `ReadAllSPD`: the hardware history, and a log of the
`SmbusReadSPD` calls made so far (oldest first).  The log is an observation only:
nothing reads it. -/
structure Acq where
  bus : List Event
  calls : List Call

/-- Outcome of one logged call. -/
structure CallResult where
  ok : Bool
  data : Nat
  st : Acq

/-- A call of `SmbusReadSPD` from `ReadAllSPD`, entered in the call log. -/
def call (hw : Hw) (dimmAddr offset data : Nat) (s : Acq) : CallResult :=
  let r := SmbusReadSPD hw dimmAddr offset data s.bus
  { ok := r.ok, data := r.data,
    st := { bus := r.trace,
            calls := s.calls ++ [{ dimmAddr := dimmAddr, offset := offset, ok := r.ok,
                                   data := r.data }] } }

/-- Line 162. -/
def spdAddresses : List Nat := [0x50, 0x51, 0x52, 0x53, 0x54, 0x55, 0x56, 0x57]

/-- State at the exit of the body loop. -/
structure BodyResult where
  success : Bool
  Data : List Nat
  st : Acq

/-- Lines 179-185: `for (int j = 0; j < dimmData.Size; j++)`, entered at `j`.
The `int j` is converted to `UINT8` at the call; `&dimmData.Data[j]` is the
output byte. -/
def bodyLoop (hw : Hw) (dimmAddr size : Nat) (j : Nat) (Data : List Nat) (s : Acq) :
    BodyResult :=
  if j < size then
    let r := call hw dimmAddr (j % 256) (Data.getD j 0) s
    if r.ok = false then { success := false, Data := Data.set j r.data, st := r.st }
    else bodyLoop hw dimmAddr size (j + 1) (Data.set j r.data) r.st
  else { success := true, Data := Data, st := s }
termination_by size - j

/-- Lines 165-190: one iteration of the outer loop, for index `i`.  The result is
the `dimmData` stored to `spdData[i]`. -/
def readSlot (hw : Hw) (i : Nat) (s : Acq) : SPD_DATA × Acq :=
  let addr := spdAddresses.getD i 0
  let dimmData : SPD_DATA :=
    { Data := List.replicate 512 0, Size := 0, DIMMSlot := i % 256, Valid := false }
  let h0 := call hw addr 0 0 s
  if h0.ok = false then (dimmData, h0.st) else
  let h1 := call hw addr 1 0 h0.st
  if h1.ok = false then (dimmData, h1.st) else
  let h2 := call hw addr 2 0 h1.st
  if h2.ok = false then (dimmData, h2.st) else
  let h3 := call hw addr 3 0 h2.st
  if h3.ok = false then (dimmData, h3.st) else
  let size := (if h2.data = 0x0C then 512 else 256) % 256
  let b := bodyLoop hw addr size 0 dimmData.Data h3.st
  ({ dimmData with Size := size, Data := b.Data, Valid := b.success }, b.st)

/-- The caller's buffer and the state after the first `k` iterations of the
outer loop (line 164). -/
def ReadAllSPD_iter (hw : Hw) (spdData : List SPD_DATA) (s : Acq) : Nat → List SPD_DATA × Acq
  | 0 => (spdData, s)
  | k + 1 =>
    let p := ReadAllSPD_iter hw spdData s k
    let r := readSlot hw k p.2
    (p.1.set k r.1, r.2)

/-- `ReadAllSPD(spdData)`: `sizeof(spdAddresses)` is 8. -/
def ReadAllSPD (hw : Hw) (spdData : List SPD_DATA) (s : Acq) : List SPD_DATA × Acq :=
  ReadAllSPD_iter hw spdData s spdAddresses.length

/-! ## Observations on histories -/

/-- The register writes of a history, in order, as (port, value). -/
def portWrites : List Event → List (Nat × Nat)
  | [] => []
  | Event.wr p v :: es => (p, v) :: portWrites es
  | _ :: es => portWrites es

/-- The port reads of a history, in order, as (port, value). -/
def portReads : List Event → List (Nat × Nat)
  | [] => []
  | Event.rd p v :: es => (p, v) :: portReads es
  | _ :: es => portReads es

/-- The values read from one port, in order. -/
def readsAt (port : Nat) (es : List Event) : List Nat :=
  ((portReads es).filter (fun pv => pv.1 = port)).map Prod.snd

/-- What a call of `SmbusReadSPD` adds to the history `t`. -/
def emitted (hw : Hw) (dimmAddr offset data : Nat) (t : List Event) : List Event :=
  (SmbusReadSPD hw dimmAddr offset data t).trace.drop t.length

/-- The acquisition state when iteration `i` of the outer loop starts. -/
def stateBefore (hw : Hw) (spdData : List SPD_DATA) (s : Acq) (i : Nat) : Acq :=
  (ReadAllSPD_iter hw spdData s i).2

/-- The `SmbusReadSPD` calls made by iteration `i` of the outer loop. -/
def slotCalls (hw : Hw) (spdData : List SPD_DATA) (s : Acq) (i : Nat) : List Call :=
  (readSlot hw i (stateBefore hw spdData s i)).2.calls.drop
    (stateBefore hw spdData s i).calls.length

/-- An event is a status poll of `port` or the 10 microsecond stall. -/
def isPoll (port : Nat) (e : Event) : Prop :=
  e = Event.stall 10 ∨ ∃ v, e = Event.rd port v

/-- The interactions of a call from its start to the write that starts the
transaction, when the arbitration wait ends after its first poll: base
resolution, one status poll and stall, then the four register writes. -/
def openingEvents (hw : Hw) (dimmAddr offset : Nat) (t : List Event) : List Event :=
  [Event.mem SMBUS_IO_BASE 4 (hw.physMem t SMBUS_IO_BASE 4).isSome,
   Event.rd (smbusBase hw t + SMBHSTSTAT)
     (hw.port (afterResolve hw t) (smbusBase hw t + SMBHSTSTAT) % 256),
   Event.stall 10,
   Event.wr (smbusBase hw t + SMBHSTSTAT) 0x06,
   Event.wr (smbusBase hw t + SMBHSTADD) (((dimmAddr <<< 1) ||| 0x01) % 256),
   Event.wr (smbusBase hw t + SMBHSTCMD) (offset % 256),
   Event.wr (smbusBase hw t + SMBHSTCTL) 0x0C]

/-! ## Concrete machines -/

/-- A machine whose controller is at base `0xEFA0`, whose status register always
reads `status`, whose other ports always read `dat`, and on which an
uninitialised local holds `stack`. -/
def hwConst (status dat stack : Nat) : Hw :=
  { physMem := fun _ _ _ => some 0xEFA0
    port := fun _ p => if p = 0xEFA0 then status else dat
    stack := fun _ => stack }

/-- The value of the last write to `port` in a history (0 when there is none). -/
def lastWrite (port : Nat) (h : List Event) : Nat :=
  ((((portWrites h).filter (fun pv => pv.1 = port)).map Prod.snd).getLast?).getD 0

/-- A machine with the controller at base `0xEFA0` on which the status register
reads interrupt-complete (`0x02`) when `good a c` holds for the last values
`a`, `c` written to the address and command registers, and error (`0x04`)
otherwise; every other port reads `dat`; an uninitialised local holds 0. -/
def hwSel (good : Nat → Nat → Bool) (dat : Nat) : Hw :=
  { physMem := fun _ _ _ => some 0xEFA0
    port := fun h p =>
      if p = 0xEFA0 then (if good (lastWrite 0xEFA4 h) (lastWrite 0xEFA3 h) then 0x02 else 0x04)
      else dat
    stack := fun _ => 0 }

/-- A machine on which every transaction completes and delivers `dat`. -/
def hwGood (dat : Nat) : Hw := hwSel (fun _ _ => true) dat

/-- A machine on which the transactions addressed to slaves below `0x54` (address
byte below `0xA9`) complete and all others end with the error bit. -/
def hwHalf : Hw := hwSel (fun a _ => decide (a < 0xA9)) 0x0C

/-- A machine on which a module answers offsets 0 to 3 and every transaction at
an offset of 4 or more ends with the error bit. -/
def hwBody : Hw := hwSel (fun _ c => decide (c < 4)) 0x0C

/-- The state in which an acquisition pass starts: nothing has happened. -/
def emptyAcq : Acq := { bus := [], calls := [] }

/-- An output buffer of 8 entries as the caller hands it over. -/
def outBuffer : List SPD_DATA :=
  List.replicate 8 { Data := List.replicate 512 0xFF, Size := 0xFF, DIMMSlot := 0xFF, Valid := true }

/-- A machine on which the physical-memory mapping always fails. -/
def hwUnmapped : Hw :=
  { physMem := fun _ _ _ => none
    port := fun _ _ => 0xFF
    stack := fun _ => 0 }

/-- The status polls of a wait: for each value read, the read of `port` and the
10 microsecond stall that follows it. -/
def pollEvents (port : Nat) : List Nat → List Event
  | [] => []
  | v :: vs => Event.rd port v :: Event.stall 10 :: pollEvents port vs

/-! ## `HardwareMonitorApp.cpp`: the SPD decoder

The application's `SPD_DATA` (lines 29-34) has the fields of the driver's.  An
image as the application receives it has a 512-byte buffer of bytes and 8-bit
`Size` and `DIMMSlot`. -/

/-- The value ranges of the fields of an `SPD_DATA`. -/
def SPD_DATA.WellFormed (spd : SPD_DATA) : Prop :=
  spd.Data.length = 512 ∧ (∀ b ∈ spd.Data, b < 256) ∧ spd.Size < 256 ∧ spd.DIMMSlot < 256

/-- The byte `spd.Data[i]`. -/
def byteAt (spd : SPD_DATA) (i : Nat) : Nat := spd.Data.getD i 0

/-- The value of an arithmetic result as a 32-bit `int` (two's complement). -/
def toInt32 (x : Int) : Int := (x + 2 ^ 31) % 2 ^ 32 - 2 ^ 31

/-- Conversion of an `int` to `UINT64`. -/
def toUInt64 (x : Int) : Nat := (x % 2 ^ 64).toNat

/-- Lines 126-128: `banks = Data[4] & 0x07`, `density = Data[4] >> 3` (both
`UINT8`), `UINT64 sizeMB = (1 << density) * (banks + 1) * 256`; the right-hand
side is evaluated in `int` and converted afterwards. -/
def moduleSizeMB (b4 : Nat) : Nat :=
  let banks := (b4 &&& 0x07) % 256
  let density := (b4 >>> 3) % 256
  toUInt64 (toInt32 (toInt32 (toInt32 (1 * 2 ^ density) * ((banks : Int) + 1)) * 256))

/-- The module size as a mathematical integer: `2^density * (banks + 1) * 256`. -/
def exactSizeMB (b4 : Nat) : Nat := 2 ^ (b4 >>> 3) * ((b4 &&& 7) + 1) * 256

/-- Digits of `n` in base 16, lower case, as `std::hex` prints an `int`. -/
def hexLower (n : Nat) : String := String.mk (Nat.toDigits 16 n)

/-- The format `%0wX`: upper-case hexadecimal, zero-padded to `w` digits. -/
def hexUpper (w n : Nat) : String :=
  String.mk (List.replicate (w - (Nat.toDigits 16 n).length) '0' ++
    (Nat.toDigits 16 n).map Char.toUpper)

/-- Lines 116-122: the text printed for the DDR type marker. -/
def ddrTypeText (ddrType : Nat) : String :=
  if ddrType = 0x0C then "DDR4"
  else if ddrType = 0x12 then "DDR5"
  else "Unknown (0x" ++ hexLower ddrType ++ ")"

/-- Lines 132-138: the text printed for the manufacturer. -/
def manufacturerText (spd : SPD_DATA) : String :=
  if byteAt spd 320 ≠ 0 then
    "JEDEC ID: " ++ toString (byteAt spd 320) ++ "-" ++ toString (byteAt spd 321)
  else "Not specified"

/-- Lines 142-145: `UINT16 t = Data[lo] | (Data[hi] << 8)`. -/
def timing16 (spd : SPD_DATA) (lo hi : Nat) : Nat :=
  (byteAt spd lo ||| (byteAt spd hi <<< 8)) % 65536

/-- The fields `PrintSPDSummary` decodes and prints (lines 113-148). -/
structure SpdSummary where
  slot : Nat
  ddrType : String
  sizeMB : Nat
  manufacturer : String
  tCL : Nat
  tRCD : Nat
  tRP : Nat
  tRAS : Nat
  deriving DecidableEq, Repr

/-- Lines 113-148 of `PrintSPDSummary`: the decoded fields. -/
def summaryFields (spd : SPD_DATA) : SpdSummary :=
  { slot := spd.DIMMSlot
    ddrType := ddrTypeText (byteAt spd 2)
    sizeMB := moduleSizeMB (byteAt spd 4)
    manufacturer := manufacturerText spd
    tCL := timing16 spd 18 19
    tRCD := timing16 spd 20 21
    tRP := timing16 spd 22 23
    tRAS := timing16 spd 24 25 }

/-- The files of the working directory: name to content. -/
abbrev Files := String → Option (List Nat)

/-- Line 151: `"dimm" + std::to_string(spd.DIMMSlot) + ".spd"`. -/
def artifactName (spd : SPD_DATA) : String := "dimm" ++ toString spd.DIMMSlot ++ ".spd"

/-- Lines 152-156: `std::ofstream file(filename, std::ios::binary)` replaces the
content of the file when it opens (`opens`); then `file.write(Data, Size)`. -/
def saveArtifact (opens : Bool) (fs : Files) (spd : SPD_DATA) : Files :=
  if opens then Function.update fs (artifactName spd) (some (spd.Data.take spd.Size)) else fs

/-- What a run of `PrintSPDSummary` leaves: the text on standard output and the
files. -/
structure SummaryOutput where
  text : String
  files : Files

/-- `PrintSPDSummary(spd)` (lines 112-157); `opens` says whether the artifact
file can be opened. -/
def PrintSPDSummary (opens : Bool) (fs : Files) (spd : SPD_DATA) : SummaryOutput :=
  let f := summaryFields spd
  { text := "\nDIMM Slot: " ++ toString f.slot ++ "\n" ++
      "DDR Type: " ++ f.ddrType ++ "\n" ++
      "Size: " ++ toString f.sizeMB ++ " MB\n" ++
      "Manufacturer: " ++ f.manufacturer ++ "\n" ++
      "SPD Timings: tCL=" ++ toString f.tCL ++ " tRCD=" ++ toString f.tRCD ++
        " tRP=" ++ toString f.tRP ++ " tRAS=" ++ toString f.tRAS ++ "\n" ++
      (if opens then "SPD saved to " ++ artifactName spd ++ "\n" else "")
    files := saveArtifact opens fs spd }

/-- Lines 175-176: `char c = Data[i + j]` (a signed 8-bit `char`), printed as
itself when `c >= 32 && c < 127` and as `.` otherwise. -/
def asciiOf (b : Nat) : Char :=
  let c : Int := if b < 128 then (b : Int) else (b : Int) - 256
  if 32 ≤ c ∧ c < 127 then Char.ofNat c.toNat else '.'

/-- One row of the dump: the offset label, the 16 hexadecimal cells, the ASCII
column. -/
structure DumpRow where
  label : String
  cells : List String
  ascii : List Char
  deriving DecidableEq, Repr

/-- Lines 164-179: the row printed for loop index `i`. -/
def dumpRow (spd : SPD_DATA) (i : Nat) : DumpRow :=
  { label := hexUpper 3 i ++ ": "
    cells := (List.range 16).map (fun j =>
      if i + j < spd.Size then hexUpper 2 (byteAt spd (i + j)) ++ " " else "   ")
    ascii := ((List.range 16).filter (fun j => decide (i + j < spd.Size))).map
      (fun j => asciiOf (byteAt spd (i + j))) }

/-- Line 163: `for (int i = 0; i < spd.Size; i += 16)`, entered at `i`. -/
def dumpRows (spd : SPD_DATA) (i : Nat) : List DumpRow :=
  if i < spd.Size then dumpRow spd i :: dumpRows spd (i + 16) else []
termination_by spd.Size - i

/-- The text of a row: label, cells, a blank, the ASCII column, a newline. -/
def DumpRow.text (r : DumpRow) : String :=
  r.label ++ String.join r.cells ++ " " ++ String.mk r.ascii ++ "\n"

/-- `DecodeSPD(spd)` (lines 159-181): the heading and the rows. -/
def DecodeSPD (spd : SPD_DATA) : String × List DumpRow :=
  ("\nDetailed SPD Data for DIMM " ++ toString spd.DIMMSlot ++ ":\n", dumpRows spd 0)

/-- The upper-case hexadecimal digit of a value below 16. -/
def hexDigit (d : Nat) : Char := "0123456789ABCDEF".toList.getD d '0'

/-- The bytes `Data[16r .. min(16r+16, Size))`. -/
def rowBytes (spd : SPD_DATA) (r : Nat) : List Nat :=
  (spd.Data.drop (16 * r)).take (min (16 * r + 16) spd.Size - 16 * r)

/-- An image with 512 bytes equal to `fill` except `b320` at offset 320, of
length `size`, for slot `slot`. -/
def imageWith (fill b320 size slot : Nat) : SPD_DATA :=
  { Data := (List.replicate 512 fill).set 320 b320, Size := size, DIMMSlot := slot,
    Valid := true }

/-- The empty working directory. -/
def noFiles : Files := fun _ => none

/-! ## Basic facts about the polling loops -/

theorem arbitrationWait_idle (hw : Hw) (port status : Nat) (timeout : Int) (t : List Event)
    (h : status &&& SMBHSTSTAT_BUSY = 0) :
    arbitrationWait hw port status timeout t =
      { status := status, timeout := timeout,
        trace := t ++ [Event.rd port (hw.port t port % 256), Event.stall 10] } := by
  rw [arbitrationWait]
  simp only [READ_PORT_UCHAR, KeStallExecutionProcessor]
  rw [if_neg (by simpa using h)]
  simp

theorem arbitrationWait_busy (hw : Hw) (port status : Nat)
    (h : status &&& SMBHSTSTAT_BUSY ≠ 0) (n : Nat) : ∀ t : List Event,
    ∃ seg, (arbitrationWait hw port status (n + 1) t).trace = t ++ seg ∧
      (arbitrationWait hw port status (n + 1) t).timeout = 0 ∧
      seg.length = 2 * (n + 1) ∧ ∀ e ∈ seg, isPoll port e := by
  induction n with
  | zero =>
    intro t
    rw [arbitrationWait]
    refine ⟨[Event.rd port (hw.port t port % 256), Event.stall 10], ?_⟩
    simp only [READ_PORT_UCHAR, KeStallExecutionProcessor]
    rw [if_pos h]
    simp [isPoll]
  | succ n ih =>
    intro t
    rw [arbitrationWait]
    have hpos : (((n + 1 : Nat) : Int) + 1 - 1 > 0) := by omega
    have heq : (((n + 1 : Nat) : Int) + 1 - 1) = (n : Int) + 1 := by omega
    obtain ⟨seg, h1, h2, h3, h4⟩ :=
      ih (KeStallExecutionProcessor 10 (READ_PORT_UCHAR hw port t).2)
    refine ⟨[Event.rd port (hw.port t port % 256), Event.stall 10] ++ seg, ?_⟩
    rw [if_pos h, dif_pos hpos, heq]
    refine ⟨?_, h2, ?_, ?_⟩
    · rw [h1]; simp [READ_PORT_UCHAR, KeStallExecutionProcessor]
    · simp [h3]; omega
    · intro e he
      simp only [List.mem_append, List.mem_cons, List.mem_singleton, List.not_mem_nil,
        or_false] at he
      rcases he with (he | he) | he
      · exact Or.inr ⟨_, he⟩
      · exact Or.inl he
      · exact h4 e he

theorem completionWait_shape (hw : Hw) (port : Nat) (n : Nat) : ∀ (timeout : Int) (t : List Event),
    timeout.toNat ≤ n →
    ∃ polls st, (completionWait hw port timeout t).trace
        = t ++ polls ++ [Event.rd port st, Event.stall 10] ∧
      (completionWait hw port timeout t).status = st ∧
      st = hw.port (t ++ polls) port % 256 ∧
      ∀ e ∈ polls, isPoll port e := by
  induction n with
  | zero =>
    intro timeout t hn
    rw [completionWait]
    have hneg : ¬ (timeout - 1 > 0) := by omega
    refine ⟨[], hw.port t port % 256, ?_⟩
    simp only [READ_PORT_UCHAR, KeStallExecutionProcessor]
    by_cases hc : hw.port t port % 256 &&& (SMBHSTSTAT_INTR ||| SMBHSTSTAT_ERROR) = 0
    · rw [if_pos hc, dif_neg hneg]; simp
    · rw [if_neg hc]; simp
  | succ n ih =>
    intro timeout t hn
    rw [completionWait]
    simp only [READ_PORT_UCHAR, KeStallExecutionProcessor]
    by_cases hc : hw.port t port % 256 &&& (SMBHSTSTAT_INTR ||| SMBHSTSTAT_ERROR) = 0
    · by_cases hpos : timeout - 1 > 0
      · obtain ⟨polls, st, h1, h2, h3, h4⟩ :=
          ih (timeout - 1) (t ++ [Event.rd port (hw.port t port % 256)] ++ [Event.stall 10])
            (by omega)
        refine ⟨[Event.rd port (hw.port t port % 256), Event.stall 10] ++ polls, st, ?_⟩
        rw [if_pos hc, dif_pos hpos]
        refine ⟨?_, h2, ?_, ?_⟩
        · rw [h1]; simp
        · rw [h3]; simp
        · intro e he
          simp only [List.mem_append, List.mem_cons, List.mem_singleton, List.not_mem_nil,
            or_false] at he
          rcases he with (he | he) | he
          · exact Or.inr ⟨_, he⟩
          · exact Or.inl he
          · exact h4 e he
      · refine ⟨[], hw.port t port % 256, ?_⟩
        rw [if_pos hc, dif_neg hpos]; simp
    · refine ⟨[], hw.port t port % 256, ?_⟩
      rw [if_neg hc]; simp

theorem afterResolve_eq (hw : Hw) (t : List Event) :
    afterResolve hw t = t ++ [Event.mem SMBUS_IO_BASE 4 (hw.physMem t SMBUS_IO_BASE 4).isSome] := by
  unfold afterResolve ReadPhysicalMemory
  cases hw.physMem t SMBUS_IO_BASE 4 <;> rfl

theorem smbusBase_unmapped (hw : Hw) (t : List Event)
    (h : hw.physMem t SMBUS_IO_BASE 4 = none) : smbusBase hw t = 0 := by
  unfold smbusBase ReadPhysicalMemory
  rw [h]
  simp

/-- The stack byte that the arbitration loop tests. -/
theorem arbitration_idle (hw : Hw) (t : List Event)
    (h : hw.stack (afterResolve hw t) % 256 &&& SMBHSTSTAT_BUSY = 0) :
    arbitration hw t =
      { status := hw.stack (afterResolve hw t) % 256, timeout := 1000,
        trace := afterResolve hw t ++
          [Event.rd (smbusBase hw t + SMBHSTSTAT)
            (hw.port (afterResolve hw t) (smbusBase hw t + SMBHSTSTAT) % 256), Event.stall 10] } := by
  unfold arbitration
  exact arbitrationWait_idle hw _ _ _ _ h

theorem arbitration_busy (hw : Hw) (t : List Event)
    (h : hw.stack (afterResolve hw t) % 256 &&& SMBHSTSTAT_BUSY ≠ 0) :
    ∃ seg, (arbitration hw t).trace = afterResolve hw t ++ seg ∧
      (arbitration hw t).timeout = 0 ∧ seg.length = 2000 ∧
      ∀ e ∈ seg, isPoll (smbusBase hw t + SMBHSTSTAT) e := by
  unfold arbitration
  exact arbitrationWait_busy hw _ _ h 999 _

theorem arbitration_past (hw : Hw) (t : List Event) (h : 0 < (arbitration hw t).timeout) :
    hw.stack (afterResolve hw t) % 256 &&& SMBHSTSTAT_BUSY = 0 := by
  by_contra hb
  obtain ⟨seg, -, h0, -⟩ := arbitration_busy hw t hb
  omega

/-- The whole history up to the end of the completion wait, for a call that gets
past the arbitration wait. -/
theorem completion_trace (hw : Hw) (dimmAddr offset : Nat) (t : List Event)
    (hpast : 0 < (arbitration hw t).timeout) :
    ∃ polls st,
      (completion hw dimmAddr offset t).trace =
        t ++ openingEvents hw dimmAddr offset t
          ++ polls ++ [Event.rd (smbusBase hw t + SMBHSTSTAT) st, Event.stall 10] ∧
      (completion hw dimmAddr offset t).status = st ∧
      (∀ e ∈ polls, isPoll (smbusBase hw t + SMBHSTSTAT) e) := by
  have hidle := arbitration_idle hw t (arbitration_past hw t hpast)
  obtain ⟨polls, st, h1, h2, -, h4⟩ :=
    completionWait_shape hw (smbusBase hw t + SMBHSTSTAT) 1000 1000
      (startTransaction (smbusBase hw t) dimmAddr offset (arbitration hw t).trace) (by decide)
  refine ⟨polls, st, ?_, h2, h4⟩
  unfold completion
  rw [h1, hidle, afterResolve_eq]
  have h6 : (SMBHSTSTAT_INTR ||| SMBHSTSTAT_ERROR) % 256 = 6 := by decide
  simp [startTransaction, WRITE_PORT_UCHAR, h6, openingEvents, afterResolve_eq]

theorem readsAt_append (port : Nat) (a b : List Event) :
    readsAt port (a ++ b) = readsAt port a ++ readsAt port b := by
  have h : ∀ a b : List Event, portReads (a ++ b) = portReads a ++ portReads b := by
    intro a b
    induction a with
    | nil => rfl
    | cons e es ih => cases e <;> simp [portReads, ih]
  simp [readsAt, h]

theorem portWrites_append (a b : List Event) :
    portWrites (a ++ b) = portWrites a ++ portWrites b := by
  induction a with
  | nil => rfl
  | cons e es ih => cases e <;> simp [portWrites, ih]

theorem portReads_append (a b : List Event) :
    portReads (a ++ b) = portReads a ++ portReads b := by
  induction a with
  | nil => rfl
  | cons e es ih => cases e <;> simp [portReads, ih]

theorem readsAt_polls (port other : Nat) (hne : port ≠ other) (polls : List Event)
    (h : ∀ e ∈ polls, isPoll port e) : readsAt other polls = [] := by
  induction polls with
  | nil => rfl
  | cons e es ih =>
    have he := h e (List.mem_cons_self _ _)
    have ih2 := ih (fun x hx => h x (List.mem_cons_of_mem _ hx))
    rcases he with he | ⟨v, he⟩
    · subst he
      simpa [readsAt, portReads] using ih2
    · subst he
      simp only [readsAt, portReads, List.filter_cons] at ih2 ⊢
      simpa [hne] using ih2

theorem portWrites_polls (port : Nat) (polls : List Event)
    (h : ∀ e ∈ polls, isPoll port e) : portWrites polls = [] := by
  induction polls with
  | nil => rfl
  | cons e es ih =>
    have he := h e (List.mem_cons_self _ _)
    have ih2 := ih (fun x hx => h x (List.mem_cons_of_mem _ hx))
    rcases he with he | ⟨v, he⟩ <;> subst he <;> simpa [portWrites] using ih2


theorem completionWait_hit (hw : Hw) (port : Nat) (timeout : Int) (t : List Event)
    (h : hw.port t port % 256 &&& (SMBHSTSTAT_INTR ||| SMBHSTSTAT_ERROR) ≠ 0) :
    completionWait hw port timeout t =
      { status := hw.port t port % 256, timeout := timeout,
        trace := t ++ [Event.rd port (hw.port t port % 256), Event.stall 10] } := by
  rw [completionWait]
  simp only [READ_PORT_UCHAR, KeStallExecutionProcessor]
  rw [if_neg h]
  simp

theorem completionWait_first (hw : Hw) (port : Nat) (timeout : Int) (t : List Event) :
    ∃ tail, (completionWait hw port timeout t).trace
      = t ++ Event.rd port (hw.port t port % 256) :: tail := by
  rw [completionWait]
  simp only [READ_PORT_UCHAR, KeStallExecutionProcessor]
  split
  · split
    · obtain ⟨p2, s2, e2, -⟩ := completionWait_shape hw port (timeout - 1).toNat (timeout - 1)
        (t ++ [Event.rd port (hw.port t port % 256)] ++ [Event.stall 10]) (le_refl _)
      exact ⟨Event.stall 10 :: (p2 ++ [Event.rd port s2, Event.stall 10]), by rw [e2]; simp⟩
    · exact ⟨[Event.stall 10], by simp⟩
  · exact ⟨[Event.stall 10], by simp⟩

theorem hwConst_port (st dat k : Nat) (h : List Event) (p : Nat) :
    (hwConst st dat k).port h p = if p = 0xEFA0 then st else dat := rfl

theorem hwConst_stack (st dat k : Nat) (h : List Event) : (hwConst st dat k).stack h = k := rfl

theorem smbusBase_hwConst (st dat k : Nat) (t : List Event) :
    smbusBase (hwConst st dat k) t = 0xEFA0 := by
  simp only [smbusBase, ReadPhysicalMemory, hwConst]
  decide

theorem afterResolve_hwConst (st dat k : Nat) (t : List Event) :
    afterResolve (hwConst st dat k) t = t ++ [Event.mem SMBUS_IO_BASE 4 true] := by
  rfl

/-- A whole call on `hwConst` when the stack byte has the busy bit clear and the
status value ends the completion wait at its first poll with success. -/
theorem SmbusReadSPD_hwConst_ok (st dat k : Nat) (hk : k % 256 &&& SMBHSTSTAT_BUSY = 0)
    (h6 : st % 256 &&& (SMBHSTSTAT_INTR ||| SMBHSTSTAT_ERROR) ≠ 0)
    (hi : st % 256 &&& SMBHSTSTAT_INTR ≠ 0) (he : st % 256 &&& SMBHSTSTAT_ERROR = 0)
    (dimmAddr offset data : Nat) (t : List Event) :
    SmbusReadSPD (hwConst st dat k) dimmAddr offset data t =
      { ok := true, data := dat % 256,
        trace := t ++ [Event.mem SMBUS_IO_BASE 4 true, Event.rd 0xEFA0 (st % 256), Event.stall 10,
          Event.wr 0xEFA0 0x06, Event.wr 0xEFA4 (((dimmAddr <<< 1) ||| 0x01) % 256),
          Event.wr 0xEFA3 (offset % 256), Event.wr 0xEFA2 0x0C,
          Event.rd 0xEFA0 (st % 256), Event.stall 10, Event.rd 0xEFA5 (dat % 256)] } := by
  have hb := smbusBase_hwConst st dat k t
  have ha : arbitration (hwConst st dat k) t =
      { status := k % 256, timeout := 1000,
        trace := t ++ [Event.mem SMBUS_IO_BASE 4 true, Event.rd 0xEFA0 (st % 256),
          Event.stall 10] } := by
    rw [arbitration_idle _ _ (by rw [hwConst_stack]; exact hk), afterResolve_hwConst, hb]
    simp [hwConst_port, hwConst_stack, SMBHSTSTAT]
  have hc : completion (hwConst st dat k) dimmAddr offset t =
      { status := st % 256, timeout := 1000,
        trace := t ++ [Event.mem SMBUS_IO_BASE 4 true, Event.rd 0xEFA0 (st % 256), Event.stall 10,
          Event.wr 0xEFA0 0x06, Event.wr 0xEFA4 (((dimmAddr <<< 1) ||| 0x01) % 256),
          Event.wr 0xEFA3 (offset % 256), Event.wr 0xEFA2 0x0C,
          Event.rd 0xEFA0 (st % 256), Event.stall 10] } := by
    unfold completion
    rw [hb]
    rw [completionWait_hit _ _ _ _ (by simpa [hwConst_port, SMBHSTSTAT] using h6), ha]
    have h06 : (SMBHSTSTAT_INTR ||| SMBHSTSTAT_ERROR) % 256 = 6 := by decide
    simp [startTransaction, WRITE_PORT_UCHAR, hwConst_port, SMBHSTSTAT, SMBHSTADD, SMBHSTCMD,
      SMBHSTCTL, h06]
  unfold SmbusReadSPD
  rw [hb, if_neg (by decide), if_neg (by rw [ha]; norm_num)]
  simp only []
  rw [hc]
  simp only []
  rw [if_neg (by rintro (h | h); exact hi h; exact h he)]
  simp [READ_PORT_UCHAR, hwConst_port, SMBHSTDAT0]

theorem smbusBase_hwSel (good : Nat → Nat → Bool) (dat : Nat) (t : List Event) :
    smbusBase (hwSel good dat) t = 0xEFA0 := by
  simp only [smbusBase, ReadPhysicalMemory, hwSel]
  decide

theorem afterResolve_hwSel (good : Nat → Nat → Bool) (dat : Nat) (t : List Event) :
    afterResolve (hwSel good dat) t = t ++ [Event.mem SMBUS_IO_BASE 4 true] := by
  rfl

theorem hwSel_port (good : Nat → Nat → Bool) (dat : Nat) (h : List Event) (p : Nat) :
    (hwSel good dat).port h p =
      if p = 0xEFA0 then (if good (lastWrite 0xEFA4 h) (lastWrite 0xEFA3 h) then 0x02 else 0x04)
      else dat := rfl

theorem lastWrite_started (t : List Event) (e1 e2 e3 : Event) (a c : Nat)
    (h1 : portWrites [e1] = []) (h2 : portWrites [e2] = []) (h3 : portWrites [e3] = []) :
    lastWrite 0xEFA4 (t ++ [e1, e2, e3, Event.wr 0xEFA0 0x06, Event.wr 0xEFA4 a,
      Event.wr 0xEFA3 c, Event.wr 0xEFA2 0x0C]) = a ∧
    lastWrite 0xEFA3 (t ++ [e1, e2, e3, Event.wr 0xEFA0 0x06, Event.wr 0xEFA4 a,
      Event.wr 0xEFA3 c, Event.wr 0xEFA2 0x0C]) = c := by
  have hs : portWrites [e1, e2, e3, Event.wr 0xEFA0 0x06, Event.wr 0xEFA4 a,
      Event.wr 0xEFA3 c, Event.wr 0xEFA2 0x0C] = [(0xEFA0, 0x06), (0xEFA4, a), (0xEFA3, c),
        (0xEFA2, 0x0C)] := by
    have e : [e1, e2, e3, Event.wr 0xEFA0 0x06, Event.wr 0xEFA4 a,
      Event.wr 0xEFA3 c, Event.wr 0xEFA2 0x0C] = [e1] ++ ([e2] ++ ([e3] ++ [Event.wr 0xEFA0 0x06,
        Event.wr 0xEFA4 a, Event.wr 0xEFA3 c, Event.wr 0xEFA2 0x0C])) := rfl
    rw [e, portWrites_append, portWrites_append, portWrites_append, h1, h2, h3]
    rfl
  constructor
  · unfold lastWrite
    rw [portWrites_append, hs]
    simp [List.filter_cons, List.getLast?_append]
  · unfold lastWrite
    rw [portWrites_append, hs]
    simp [List.filter_cons, List.getLast?_append]

/-- The outcome of a call that reaches the completion wait, in terms of the
status value the wait ends with. -/
theorem SmbusReadSPD_of_completion (hw : Hw) (dimmAddr offset data : Nat) (t : List Event)
    (hbase : smbusBase hw t ≠ 0) (hpast : 0 < (arbitration hw t).timeout) :
    ((completion hw dimmAddr offset t).status &&& SMBHSTSTAT_INTR = 0 ∨
        (completion hw dimmAddr offset t).status &&& SMBHSTSTAT_ERROR ≠ 0 →
      SmbusReadSPD hw dimmAddr offset data t =
        { ok := false, data := data, trace := (completion hw dimmAddr offset t).trace }) ∧
    (¬ ((completion hw dimmAddr offset t).status &&& SMBHSTSTAT_INTR = 0 ∨
        (completion hw dimmAddr offset t).status &&& SMBHSTSTAT_ERROR ≠ 0) →
      SmbusReadSPD hw dimmAddr offset data t =
        { ok := true,
          data := hw.port (completion hw dimmAddr offset t).trace (smbusBase hw t + SMBHSTDAT0) % 256,
          trace := (completion hw dimmAddr offset t).trace ++
            [Event.rd (smbusBase hw t + SMBHSTDAT0)
              (hw.port (completion hw dimmAddr offset t).trace
                (smbusBase hw t + SMBHSTDAT0) % 256)] }) := by
  have hto : ¬ (arbitration hw t).timeout ≤ 0 := by omega
  constructor
  · intro hc
    unfold SmbusReadSPD
    rw [if_neg hbase, if_neg hto]
    simp only []
    rw [if_pos hc]
  · intro hc
    unfold SmbusReadSPD
    rw [if_neg hbase, if_neg hto]
    simp only []
    rw [if_neg hc]
    rfl

/-- A whole call on `hwSel`: it succeeds exactly when `good` holds for the
address and command bytes it wrote. -/
theorem SmbusReadSPD_hwSel (good : Nat → Nat → Bool) (dat : Nat)
    (dimmAddr offset data : Nat) (t : List Event) :
    (SmbusReadSPD (hwSel good dat) dimmAddr offset data t).ok
      = good (((dimmAddr <<< 1) ||| 0x01) % 256) (offset % 256) ∧
    (SmbusReadSPD (hwSel good dat) dimmAddr offset data t).data
      = if good (((dimmAddr <<< 1) ||| 0x01) % 256) (offset % 256) then dat % 256 else data := by
  have hb := smbusBase_hwSel good dat t
  have ha : arbitration (hwSel good dat) t =
      { status := 0, timeout := 1000,
        trace := t ++ [Event.mem SMBUS_IO_BASE 4 true,
          Event.rd 0xEFA0 ((hwSel good dat).port (t ++ [Event.mem SMBUS_IO_BASE 4 true]) 0xEFA0 % 256),
          Event.stall 10] } := by
    have hk : (hwSel good dat).stack (afterResolve (hwSel good dat) t) % 256
        &&& SMBHSTSTAT_BUSY = 0 := by
      show 0 % 256 &&& SMBHSTSTAT_BUSY = 0
      decide
    rw [arbitration_idle _ _ hk, afterResolve_hwSel, hb]
    simp [SMBHSTSTAT]
    rfl
  have h06 : (SMBHSTSTAT_INTR ||| SMBHSTSTAT_ERROR) % 256 = 6 := by decide
  have hstart : startTransaction 0xEFA0 dimmAddr offset (arbitration (hwSel good dat) t).trace =
      t ++ [Event.mem SMBUS_IO_BASE 4 true,
          Event.rd 0xEFA0 ((hwSel good dat).port (t ++ [Event.mem SMBUS_IO_BASE 4 true]) 0xEFA0 % 256),
          Event.stall 10, Event.wr 0xEFA0 0x06,
          Event.wr 0xEFA4 (((dimmAddr <<< 1) ||| 0x01) % 256),
          Event.wr 0xEFA3 (offset % 256), Event.wr 0xEFA2 0x0C] := by
    rw [ha]
    simp [startTransaction, WRITE_PORT_UCHAR, SMBHSTSTAT, SMBHSTADD, SMBHSTCMD, SMBHSTCTL, h06]
  have hlw := lastWrite_started t (Event.mem SMBUS_IO_BASE 4 true)
    (Event.rd 0xEFA0 ((hwSel good dat).port (t ++ [Event.mem SMBUS_IO_BASE 4 true]) 0xEFA0 % 256))
    (Event.stall 10) (((dimmAddr <<< 1) ||| 0x01) % 256) (offset % 256) rfl rfl rfl
  have hport : (hwSel good dat).port
      (startTransaction 0xEFA0 dimmAddr offset (arbitration (hwSel good dat) t).trace) 0xEFA0 % 256
      = if good (((dimmAddr <<< 1) ||| 0x01) % 256) (offset % 256) then 0x02 else 0x04 := by
    rw [hstart, hwSel_port, hlw.1, hlw.2]
    simp only [if_true]
    split <;> rfl
  have hc : (completion (hwSel good dat) dimmAddr offset t).status
      = if good (((dimmAddr <<< 1) ||| 0x01) % 256) (offset % 256) then 0x02 else 0x04 := by
    unfold completion
    rw [hb]
    have e0 : (0xEFA0 : Nat) + SMBHSTSTAT = 0xEFA0 := rfl
    rw [e0, completionWait_hit _ _ _ _ (by rw [hport]; split <;> decide)]
    exact hport
  have hgen := SmbusReadSPD_of_completion (hwSel good dat) dimmAddr offset data t
    (by rw [hb]; decide) (by rw [ha]; norm_num)
  rw [hc] at hgen
  cases hg : good (((dimmAddr <<< 1) ||| 0x01) % 256) (offset % 256)
  · rw [hg] at hgen
    rw [hgen.1 (by right; simp only [Bool.false_eq_true, if_false]; decide)]
    simp
  · rw [hg] at hgen
    rw [hgen.2 (by simp only [if_true]; decide)]
    simp [hwSel_port, hb, SMBHSTDAT0]

/-! ## Basic facts about `ReadAllSPD` -/

theorem bodyLoop_empty (hw : Hw) (dimmAddr j : Nat) (Data : List Nat) (s : Acq) :
    bodyLoop hw dimmAddr 0 j Data s = { success := true, Data := Data, st := s } := by
  rw [bodyLoop]
  simp

/-- The value stored by line 176 after conversion to the 8-bit `Size` field. -/
theorem size_stored (b : Nat) : (if b = 0x0C then 512 else 256) % 256 = 0 := by
  split <;> rfl

theorem call_calls (hw : Hw) (dimmAddr offset data : Nat) (s : Acq) :
    (call hw dimmAddr offset data s).st.calls =
      s.calls ++ [{ dimmAddr := dimmAddr, offset := offset,
                    ok := (call hw dimmAddr offset data s).ok,
                    data := (call hw dimmAddr offset data s).data }] := rfl

theorem call_ok (hw : Hw) (dimmAddr offset data : Nat) (s : Acq) :
    (call hw dimmAddr offset data s).ok = (SmbusReadSPD hw dimmAddr offset data s.bus).ok := rfl

theorem call_data (hw : Hw) (dimmAddr offset data : Nat) (s : Acq) :
    (call hw dimmAddr offset data s).data = (SmbusReadSPD hw dimmAddr offset data s.bus).data :=
  rfl

/-- What one iteration of the outer loop stores: the buffer is all zero and
`Size` is 0 whatever the header reads returned. -/
theorem readSlot_entry (hw : Hw) (i : Nat) (s : Acq) :
    (readSlot hw i s).1 =
      { Data := List.replicate 512 0, Size := 0, DIMMSlot := i % 256,
        Valid := (readSlot hw i s).1.Valid } := by
  unfold readSlot
  simp only [size_stored, bodyLoop_empty]
  split_ifs <;> rfl

/-- The calls made by one iteration of the outer loop: between one and four
header reads at offsets 0, 1, .., all to the address of the slot, each one but
the last successful; the entry is valid exactly when all of them succeed, and
then there are four. -/
theorem readSlot_calls (hw : Hw) (i : Nat) (s : Acq) :
    ∃ cs, (readSlot hw i s).2.calls = s.calls ++ cs ∧
      cs ≠ [] ∧ cs.length ≤ 4 ∧
      cs.map Call.offset = List.range cs.length ∧
      (∀ c ∈ cs, c.dimmAddr = spdAddresses.getD i 0) ∧
      (∀ c ∈ cs, ∃ d t, c.ok = (SmbusReadSPD hw c.dimmAddr c.offset d t).ok ∧
        c.data = (SmbusReadSPD hw c.dimmAddr c.offset d t).data) ∧
      ((readSlot hw i s).1.Valid = true ↔ ∀ c ∈ cs, c.ok = true) ∧
      ((readSlot hw i s).1.Valid = true → cs.length = 4) ∧
      (∀ c ∈ cs.dropLast, c.ok = true) := by
  unfold readSlot
  simp only [size_stored, bodyLoop_empty]
  generalize spdAddresses.getD i 0 = a
  have e0 := call_calls hw a 0 0 s
  have r0 : ∃ d t, (call hw a 0 0 s).ok = (SmbusReadSPD hw a 0 d t).ok ∧
      (call hw a 0 0 s).data = (SmbusReadSPD hw a 0 d t).data := ⟨0, s.bus, rfl, rfl⟩
  generalize call hw a 0 0 s = c0 at *
  have e1 := call_calls hw a 1 0 c0.st
  have r1 : ∃ d t, (call hw a 1 0 c0.st).ok = (SmbusReadSPD hw a 1 d t).ok ∧
      (call hw a 1 0 c0.st).data = (SmbusReadSPD hw a 1 d t).data := ⟨0, c0.st.bus, rfl, rfl⟩
  generalize call hw a 1 0 c0.st = c1 at *
  have e2 := call_calls hw a 2 0 c1.st
  have r2 : ∃ d t, (call hw a 2 0 c1.st).ok = (SmbusReadSPD hw a 2 d t).ok ∧
      (call hw a 2 0 c1.st).data = (SmbusReadSPD hw a 2 d t).data := ⟨0, c1.st.bus, rfl, rfl⟩
  generalize call hw a 2 0 c1.st = c2 at *
  have e3 := call_calls hw a 3 0 c2.st
  have r3 : ∃ d t, (call hw a 3 0 c2.st).ok = (SmbusReadSPD hw a 3 d t).ok ∧
      (call hw a 3 0 c2.st).data = (SmbusReadSPD hw a 3 d t).data := ⟨0, c2.st.bus, rfl, rfl⟩
  generalize call hw a 3 0 c2.st = c3 at *
  rw [e0] at e1
  rw [e1] at e2
  rw [e2] at e3
  simp only [List.append_assoc, List.singleton_append] at e1 e2 e3
  by_cases h0 : c0.ok = false
  · rw [if_pos h0]
    refine ⟨[⟨a, 0, c0.ok, c0.data⟩], e0, by simp, by simp, rfl, by simp, ?_, by simp [h0],
      by simp [h0], by simp⟩
    intro c hc
    simp only [List.mem_singleton] at hc
    subst hc
    exact r0
  rw [if_neg h0]
  by_cases h1 : c1.ok = false
  · rw [if_pos h1]
    refine ⟨[⟨a, 0, c0.ok, c0.data⟩, ⟨a, 1, c1.ok, c1.data⟩], e1, by simp, by simp, rfl, by simp,
      ?_, by simp [h1], by simp [h1], by simpa using h0⟩
    intro c hc
    simp only [List.mem_cons, List.mem_singleton, List.not_mem_nil, or_false] at hc
    rcases hc with hc | hc <;> subst hc
    · exact r0
    · exact r1
  rw [if_neg h1]
  by_cases h2 : c2.ok = false
  · rw [if_pos h2]
    refine ⟨[⟨a, 0, c0.ok, c0.data⟩, ⟨a, 1, c1.ok, c1.data⟩, ⟨a, 2, c2.ok, c2.data⟩], e2, by simp,
      by simp, rfl, by simp, ?_, by simp [h2], by simp [h2], ?_⟩
    · intro c hc
      simp only [List.mem_cons, List.mem_singleton, List.not_mem_nil, or_false] at hc
      rcases hc with hc | hc | hc <;> subst hc
      · exact r0
      · exact r1
      · exact r2
    · intro c hc
      simp only [List.dropLast, List.mem_cons, List.mem_singleton, List.not_mem_nil,
        or_false] at hc
      rcases hc with hc | hc <;> subst hc
      · simpa using h0
      · simpa using h1
  rw [if_neg h2]
  have hreal : ∀ c ∈ [(⟨a, 0, c0.ok, c0.data⟩ : Call), ⟨a, 1, c1.ok, c1.data⟩,
      ⟨a, 2, c2.ok, c2.data⟩, ⟨a, 3, c3.ok, c3.data⟩],
      ∃ d t, c.ok = (SmbusReadSPD hw c.dimmAddr c.offset d t).ok ∧
        c.data = (SmbusReadSPD hw c.dimmAddr c.offset d t).data := by
    intro c hc
    simp only [List.mem_cons, List.mem_singleton, List.not_mem_nil, or_false] at hc
    rcases hc with hc | hc | hc | hc <;> subst hc
    · exact r0
    · exact r1
    · exact r2
    · exact r3
  have hdl : ∀ c ∈ List.dropLast [(⟨a, 0, c0.ok, c0.data⟩ : Call), ⟨a, 1, c1.ok, c1.data⟩,
      ⟨a, 2, c2.ok, c2.data⟩, ⟨a, 3, c3.ok, c3.data⟩], c.ok = true := by
    intro c hc
    simp only [List.dropLast, List.mem_cons, List.mem_singleton, List.not_mem_nil,
      or_false] at hc
    rcases hc with hc | hc | hc <;> subst hc
    · simpa using h0
    · simpa using h1
    · simpa using h2
  simp only [Bool.not_eq_false] at h0 h1 h2
  by_cases h3 : c3.ok = false
  · rw [if_pos h3]
    exact ⟨_, e3, by simp, by simp, rfl, by simp, hreal, by simp [h3], by simp, hdl⟩
  · rw [if_neg h3]
    simp only [Bool.not_eq_false] at h3
    exact ⟨_, e3, by simp, by simp, rfl, by simp, hreal, by simp [h0, h1, h2, h3], by simp, hdl⟩

theorem iter_length (hw : Hw) (spdData : List SPD_DATA) (s : Acq) (k : Nat) :
    (ReadAllSPD_iter hw spdData s k).1.length = spdData.length := by
  induction k with
  | zero => rfl
  | succ k ih => simp [ReadAllSPD_iter, ih]

theorem iter_untouched (hw : Hw) (spdData : List SPD_DATA) (s : Acq) (k i : Nat) (h : k ≤ i) :
    (ReadAllSPD_iter hw spdData s k).1[i]? = spdData[i]? := by
  induction k with
  | zero => rfl
  | succ k ih =>
    simp only [ReadAllSPD_iter]
    rw [List.getElem?_set_ne (by omega)]
    exact ih (by omega)

theorem iter_stored (hw : Hw) (spdData : List SPD_DATA) (s : Acq) (k i : Nat)
    (hi : i < k) (hk : k ≤ spdData.length) :
    (ReadAllSPD_iter hw spdData s k).1[i]? = some (readSlot hw i (stateBefore hw spdData s i)).1 := by
  induction k with
  | zero => omega
  | succ k ih =>
    simp only [ReadAllSPD_iter]
    by_cases hik : i = k
    · subst hik
      rw [List.getElem?_set_self (by rw [iter_length]; omega)]
      rfl
    · rw [List.getElem?_set_ne (by omega)]
      exact ih (by omega) (by omega)

theorem stateBefore_succ (hw : Hw) (spdData : List SPD_DATA) (s : Acq) (i : Nat) :
    stateBefore hw spdData s (i + 1) = (readSlot hw i (stateBefore hw spdData s i)).2 := rfl

theorem spdAddresses_getD (i : Nat) (hi : i < 8) : spdAddresses.getD i 0 = 0x50 + i := by
  interval_cases i <;> rfl

/-- The calls of iteration `i`, as they stand in the call log. -/
theorem slotCalls_spec (hw : Hw) (spdData : List SPD_DATA) (s : Acq) (i : Nat) :
    (stateBefore hw spdData s (i + 1)).calls
        = (stateBefore hw spdData s i).calls ++ slotCalls hw spdData s i ∧
      slotCalls hw spdData s i ≠ [] ∧ (slotCalls hw spdData s i).length ≤ 4 ∧
      (slotCalls hw spdData s i).map Call.offset = List.range (slotCalls hw spdData s i).length ∧
      (∀ c ∈ slotCalls hw spdData s i, c.dimmAddr = spdAddresses.getD i 0) ∧
      (∀ c ∈ slotCalls hw spdData s i,
        ∃ d t, c.ok = (SmbusReadSPD hw c.dimmAddr c.offset d t).ok ∧
          c.data = (SmbusReadSPD hw c.dimmAddr c.offset d t).data) ∧
      ((readSlot hw i (stateBefore hw spdData s i)).1.Valid = true ↔
        ∀ c ∈ slotCalls hw spdData s i, c.ok = true) ∧
      ((readSlot hw i (stateBefore hw spdData s i)).1.Valid = true →
        (slotCalls hw spdData s i).length = 4) ∧
      (∀ c ∈ (slotCalls hw spdData s i).dropLast, c.ok = true) := by
  obtain ⟨cs, h1, h2⟩ := readSlot_calls hw i (stateBefore hw spdData s i)
  have hcs : slotCalls hw spdData s i = cs := by
    unfold slotCalls
    rw [h1, List.drop_left]
  rw [hcs, stateBefore_succ]
  exact ⟨h1, h2⟩

theorem SmbusReadSPD_hwSel_ok (good : Nat → Nat → Bool) (dat : Nat)
    (dimmAddr offset data : Nat) (t : List Event) :
    (SmbusReadSPD (hwSel good dat) dimmAddr offset data t).ok
      = good (((dimmAddr <<< 1) ||| 0x01) % 256) (offset % 256) :=
  (SmbusReadSPD_hwSel good dat dimmAddr offset data t).1

theorem SmbusReadSPD_hwSel_data (good : Nat → Nat → Bool) (dat : Nat)
    (dimmAddr offset data : Nat) (t : List Event) :
    (SmbusReadSPD (hwSel good dat) dimmAddr offset data t).data
      = if good (((dimmAddr <<< 1) ||| 0x01) % 256) (offset % 256) then dat % 256 else data :=
  (SmbusReadSPD_hwSel good dat dimmAddr offset data t).2

theorem calls_grow (hw : Hw) (spdData : List SPD_DATA) (s : Acq) (k : Nat) : ∀ n : Nat,
    ∃ post, (stateBefore hw spdData s (k + n)).calls
      = (stateBefore hw spdData s k).calls ++ post := by
  intro n
  induction n with
  | zero => exact ⟨[], by simp⟩
  | succ n ih =>
    obtain ⟨post, hp⟩ := ih
    refine ⟨post ++ slotCalls hw spdData s (k + n), ?_⟩
    have h := (slotCalls_spec hw spdData s (k + n)).1
    rw [← Nat.add_assoc, h, hp, List.append_assoc]

/-- The calls of iteration `k` stand in the final call log, after everything
logged before that iteration. -/
theorem slotCalls_in_log (hw : Hw) (spdData : List SPD_DATA) (s : Acq) (k : Nat) (hk : k < 8) :
    ∃ post, (ReadAllSPD hw spdData s).2.calls
      = (stateBefore hw spdData s k).calls ++ slotCalls hw spdData s k ++ post := by
  obtain ⟨post, hp⟩ := calls_grow hw spdData s (k + 1) (8 - (k + 1))
  refine ⟨post, ?_⟩
  have h8 : k + 1 + (8 - (k + 1)) = 8 := by omega
  rw [h8, (slotCalls_spec hw spdData s k).1] at hp
  exact hp

theorem slotCalls_first (hw : Hw) (spdData : List SPD_DATA) (s : Acq) (k : Nat) (hk : k < 8) :
    ∃ c ∈ slotCalls hw spdData s k, c.dimmAddr = 0x50 + k ∧ c.offset = 0 := by
  obtain ⟨-, hne, -, hoff, haddr, -⟩ := slotCalls_spec hw spdData s k
  cases hcs : slotCalls hw spdData s k with
  | nil => exact absurd hcs hne
  | cons c rest =>
    rw [hcs] at hoff haddr
    refine ⟨c, List.mem_cons_self _ _, ?_, ?_⟩
    · rw [haddr c (List.mem_cons_self _ _), spdAddresses_getD k hk]
    · simp only [List.map_cons, List.length_cons, List.range_succ_eq_map] at hoff
      exact (List.cons.inj hoff).1

theorem entry_stored (hw : Hw) (spdData : List SPD_DATA) (s : Acq) (i : Nat)
    (hlen : 8 ≤ spdData.length) (hi : i < 8) :
    (ReadAllSPD hw spdData s).1[i]? =
      some { Data := List.replicate 512 0, Size := 0, DIMMSlot := i,
             Valid := (readSlot hw i (stateBefore hw spdData s i)).1.Valid } := by
  unfold ReadAllSPD
  rw [iter_stored hw spdData s spdAddresses.length i hi hlen, readSlot_entry]
  have hm : i % 256 = i := Nat.mod_eq_of_lt (by omega)
  rw [hm]

/-! ## Claims about `SmbusReadSPD` -/

/-- C1: for a call with a non-zero base that gets past the arbitration wait, let
`st` be the last status value polled by the completion wait.  The call returns
`TRUE` exactly when `st` has the interrupt bit set and the error bit clear.  On
success the byte returned is the value read from `DAT0` right after that poll; on
failure `DAT0` is never read and the output byte keeps its old content. -/
theorem SmbusReadSPD_outcome (hw : Hw) (dimmAddr offset data : Nat) (t : List Event)
    (hbase : smbusBase hw t ≠ 0) (hpast : 0 < (arbitration hw t).timeout) :
    ∃ pre st,
      (completion hw dimmAddr offset t).trace
        = t ++ pre ++ [Event.rd (smbusBase hw t + SMBHSTSTAT) st, Event.stall 10] ∧
      ((SmbusReadSPD hw dimmAddr offset data t).ok = true ↔
        (st &&& SMBHSTSTAT_INTR ≠ 0 ∧ st &&& SMBHSTSTAT_ERROR = 0)) ∧
      ((SmbusReadSPD hw dimmAddr offset data t).ok = true →
        (SmbusReadSPD hw dimmAddr offset data t).trace
          = t ++ pre ++ [Event.rd (smbusBase hw t + SMBHSTSTAT) st, Event.stall 10,
              Event.rd (smbusBase hw t + SMBHSTDAT0) (SmbusReadSPD hw dimmAddr offset data t).data] ∧
        (SmbusReadSPD hw dimmAddr offset data t).data
          = hw.port (t ++ pre ++ [Event.rd (smbusBase hw t + SMBHSTSTAT) st, Event.stall 10])
              (smbusBase hw t + SMBHSTDAT0) % 256 ∧
        readsAt (smbusBase hw t + SMBHSTDAT0) pre = []) ∧
      ((SmbusReadSPD hw dimmAddr offset data t).ok = false →
        (SmbusReadSPD hw dimmAddr offset data t).data = data ∧
        (SmbusReadSPD hw dimmAddr offset data t).trace
          = t ++ pre ++ [Event.rd (smbusBase hw t + SMBHSTSTAT) st, Event.stall 10] ∧
        readsAt (smbusBase hw t + SMBHSTDAT0) (emitted hw dimmAddr offset data t) = []) := by
  obtain ⟨polls, st, htr, hst, hpolls⟩ := completion_trace hw dimmAddr offset t hpast
  have hne : smbusBase hw t + SMBHSTSTAT ≠ smbusBase hw t + SMBHSTDAT0 := by
    simp [SMBHSTSTAT, SMBHSTDAT0]
  have hne2 : ¬ (smbusBase hw t = smbusBase hw t + 5) := by omega
  have hpre : readsAt (smbusBase hw t + SMBHSTDAT0)
      (openingEvents hw dimmAddr offset t ++ polls) = [] := by
    rw [readsAt_append, readsAt_polls _ _ hne polls hpolls]
    simp [openingEvents, readsAt, portReads, SMBHSTSTAT, SMBHSTDAT0, hne2]
  refine ⟨openingEvents hw dimmAddr offset t ++ polls, st, by rw [htr]; simp, ?_⟩
  have hto : ¬ (arbitration hw t).timeout ≤ 0 := by omega
  by_cases hc : (completion hw dimmAddr offset t).status &&& SMBHSTSTAT_INTR = 0 ∨
      (completion hw dimmAddr offset t).status &&& SMBHSTSTAT_ERROR ≠ 0
  · have hr : SmbusReadSPD hw dimmAddr offset data t =
        { ok := false, data := data, trace := (completion hw dimmAddr offset t).trace } := by
      unfold SmbusReadSPD
      rw [if_neg hbase, if_neg hto]
      simp only []
      rw [if_pos hc]
    have hem : emitted hw dimmAddr offset data t = openingEvents hw dimmAddr offset t ++ polls ++
        [Event.rd (smbusBase hw t + SMBHSTSTAT) st, Event.stall 10] := by
      unfold emitted
      rw [hr]
      simp only [htr, List.append_assoc, List.drop_left]
    rw [hst] at hc
    refine ⟨?_, ?_, ?_⟩
    · rw [hr]
      constructor
      · intro h; cases h
      · rintro ⟨h1, h2⟩
        rcases hc with hc | hc
        · exact absurd hc h1
        · exact absurd h2 hc
    · intro h
      rw [hr] at h
      cases h
    · intro _
      refine ⟨by rw [hr], by rw [hr, htr]; simp, ?_⟩
      rw [hem, readsAt_append, hpre]
      simp [readsAt, portReads, SMBHSTSTAT, SMBHSTDAT0, hne2]
  · have hr : SmbusReadSPD hw dimmAddr offset data t =
        { ok := true,
          data := hw.port (completion hw dimmAddr offset t).trace (smbusBase hw t + SMBHSTDAT0) % 256,
          trace := (completion hw dimmAddr offset t).trace ++
            [Event.rd (smbusBase hw t + SMBHSTDAT0)
              (hw.port (completion hw dimmAddr offset t).trace (smbusBase hw t + SMBHSTDAT0) % 256)] } := by
      unfold SmbusReadSPD
      rw [if_neg hbase, if_neg hto]
      simp only []
      rw [if_neg hc]
      rfl
    rw [hst] at hc
    refine ⟨?_, ?_, ?_⟩
    · rw [hr]
      simp only [true_iff]
      constructor
      · intro h; exact hc (Or.inl h)
      · by_contra h; exact hc (Or.inr h)
    · intro _
      refine ⟨by rw [hr, htr]; simp, by rw [hr, htr]; simp, hpre⟩
    · intro h
      rw [hr] at h
      cases h

/-- C1 at a concrete machine: status always reads interrupt-complete, `DAT0`
reads `0x0C`. -/
theorem SmbusReadSPD_outcome_witness :
    ∃ pre st,
      (completion (hwConst 0x02 0x0C 0) 0x50 2 []).trace
        = [] ++ pre ++ [Event.rd (smbusBase (hwConst 0x02 0x0C 0) [] + SMBHSTSTAT) st,
            Event.stall 10] ∧
      ((SmbusReadSPD (hwConst 0x02 0x0C 0) 0x50 2 0 []).ok = true ↔
        (st &&& SMBHSTSTAT_INTR ≠ 0 ∧ st &&& SMBHSTSTAT_ERROR = 0)) ∧
      ((SmbusReadSPD (hwConst 0x02 0x0C 0) 0x50 2 0 []).ok = true →
        (SmbusReadSPD (hwConst 0x02 0x0C 0) 0x50 2 0 []).trace
          = [] ++ pre ++ [Event.rd (smbusBase (hwConst 0x02 0x0C 0) [] + SMBHSTSTAT) st,
              Event.stall 10,
              Event.rd (smbusBase (hwConst 0x02 0x0C 0) [] + SMBHSTDAT0)
                (SmbusReadSPD (hwConst 0x02 0x0C 0) 0x50 2 0 []).data] ∧
        (SmbusReadSPD (hwConst 0x02 0x0C 0) 0x50 2 0 []).data
          = (hwConst 0x02 0x0C 0).port
              ([] ++ pre ++ [Event.rd (smbusBase (hwConst 0x02 0x0C 0) [] + SMBHSTSTAT) st,
                Event.stall 10])
              (smbusBase (hwConst 0x02 0x0C 0) [] + SMBHSTDAT0) % 256 ∧
        readsAt (smbusBase (hwConst 0x02 0x0C 0) [] + SMBHSTDAT0) pre = []) ∧
      ((SmbusReadSPD (hwConst 0x02 0x0C 0) 0x50 2 0 []).ok = false →
        (SmbusReadSPD (hwConst 0x02 0x0C 0) 0x50 2 0 []).data = 0 ∧
        (SmbusReadSPD (hwConst 0x02 0x0C 0) 0x50 2 0 []).trace
          = [] ++ pre ++ [Event.rd (smbusBase (hwConst 0x02 0x0C 0) [] + SMBHSTSTAT) st,
              Event.stall 10] ∧
        readsAt (smbusBase (hwConst 0x02 0x0C 0) [] + SMBHSTDAT0)
          (emitted (hwConst 0x02 0x0C 0) 0x50 2 0 []) = []) :=
  SmbusReadSPD_outcome (hwConst 0x02 0x0C 0) 0x50 2 0 [] (by decide)
    (by rw [arbitration_idle _ _ (by decide)]; decide)


/-- C2 (evaluation at a failing input): on a machine whose status register has
the busy bit set on every poll (it always reads `0x03`), with the unassigned
local `status` holding 0, `SmbusReadSPD` does not time out: it leaves the
arbitration wait after one poll, writes the status, address, command and
control registers, and returns `TRUE` with the byte in `DAT0`. -/
theorem SmbusReadSPD_busy_not_honoured :
    (∀ h : List Event, (hwConst 0x03 0x5A 0).port h (0xEFA0 + SMBHSTSTAT) % 256
        &&& SMBHSTSTAT_BUSY ≠ 0) ∧
    (SmbusReadSPD (hwConst 0x03 0x5A 0) 0x50 0 0 []).ok = true ∧
    (SmbusReadSPD (hwConst 0x03 0x5A 0) 0x50 0 0 []).data = 0x5A ∧
    portWrites (emitted (hwConst 0x03 0x5A 0) 0x50 0 0 []) =
      [(0xEFA0 + SMBHSTSTAT, 0x06), (0xEFA0 + SMBHSTADD, 0xA1), (0xEFA0 + SMBHSTCMD, 0),
       (0xEFA0 + SMBHSTCTL, 0x0C)] ∧
    readsAt (0xEFA0 + SMBHSTSTAT) (emitted (hwConst 0x03 0x5A 0) 0x50 0 0 []) = [0x03, 0x03] := by
  refine ⟨fun h => by simp [hwConst, SMBHSTSTAT]; decide, ?_⟩
  unfold emitted
  rw [SmbusReadSPD_hwConst_ok 0x03 0x5A 0 (by decide) (by decide) (by decide) (by decide)]
  simp only [List.nil_append, List.length_nil, List.drop_zero]
  decide

/-- C3: when the controller base resolves to 0, in particular when the
physical-memory read fails, a call of `SmbusReadSPD` (whatever the slave
address, offset and history) returns `FALSE`, performs no port read and no port
write (its only interaction is the failed or zero base resolution), and leaves
the output byte as it was. -/
theorem SmbusReadSPD_no_controller (hw : Hw) (dimmAddr offset data : Nat) (t : List Event)
    (h : hw.physMem t SMBUS_IO_BASE 4 = none ∨ smbusBase hw t = 0) :
    smbusBase hw t = 0 ∧
    (SmbusReadSPD hw dimmAddr offset data t).ok = false ∧
    (SmbusReadSPD hw dimmAddr offset data t).data = data ∧
    emitted hw dimmAddr offset data t
      = [Event.mem SMBUS_IO_BASE 4 (hw.physMem t SMBUS_IO_BASE 4).isSome] ∧
    portReads (emitted hw dimmAddr offset data t) = [] ∧
    portWrites (emitted hw dimmAddr offset data t) = [] := by
  have hb : smbusBase hw t = 0 := by
    rcases h with h | h
    · exact smbusBase_unmapped hw t h
    · exact h
  have hr : SmbusReadSPD hw dimmAddr offset data t =
      { ok := false, data := data, trace := afterResolve hw t } := by
    unfold SmbusReadSPD
    rw [if_pos hb]
  have hem : emitted hw dimmAddr offset data t
      = [Event.mem SMBUS_IO_BASE 4 (hw.physMem t SMBUS_IO_BASE 4).isSome] := by
    unfold emitted
    rw [hr, afterResolve_eq]
    simp
  refine ⟨hb, by rw [hr], by rw [hr], hem, ?_, ?_⟩
  · rw [hem]; rfl
  · rw [hem]; rfl

/-- C3 at a machine on which the mapping of the base always fails. -/
theorem SmbusReadSPD_no_controller_witness :
    smbusBase hwUnmapped [] = 0 ∧
    (SmbusReadSPD hwUnmapped 0x50 2 0x77 []).ok = false ∧
    (SmbusReadSPD hwUnmapped 0x50 2 0x77 []).data = 0x77 ∧
    emitted hwUnmapped 0x50 2 0x77 []
      = [Event.mem SMBUS_IO_BASE 4 (hwUnmapped.physMem [] SMBUS_IO_BASE 4).isSome] ∧
    portReads (emitted hwUnmapped 0x50 2 0x77 []) = [] ∧
    portWrites (emitted hwUnmapped 0x50 2 0x77 []) = [] :=
  SmbusReadSPD_no_controller hwUnmapped 0x50 2 0x77 [] (Or.inl rfl)

/-- C4: for a call `SmbusReadSPD(dimmAddr, offset)` with a non-zero base that
gets past the arbitration wait, what the call adds to the history is: the base
resolution, one arbitration poll and stall, then the four writes
status <- 0x06, address <- ((dimmAddr << 1) | 1) mod 256, command <- offset,
control <- 0x0C, then the completion wait (status polls and stalls only),
then at most one read of `DAT0`.  So the register writes of the call are exactly
these four, in this order, all before the first completion poll. -/
theorem SmbusReadSPD_writes (hw : Hw) (dimmAddr offset data : Nat) (t : List Event)
    (ho : offset < 256)
    (hbase : smbusBase hw t ≠ 0) (hpast : 0 < (arbitration hw t).timeout) :
    ∃ v0 cpolls,
      (completion hw dimmAddr offset t).trace =
        t ++ [Event.mem SMBUS_IO_BASE 4 (hw.physMem t SMBUS_IO_BASE 4).isSome,
              Event.rd (smbusBase hw t + SMBHSTSTAT) v0,
              Event.stall 10,
              Event.wr (smbusBase hw t + SMBHSTSTAT) 0x06,
              Event.wr (smbusBase hw t + SMBHSTADD) (((dimmAddr <<< 1) ||| 0x01) % 256),
              Event.wr (smbusBase hw t + SMBHSTCMD) offset,
              Event.wr (smbusBase hw t + SMBHSTCTL) 0x0C] ++ cpolls ∧
      (∀ e ∈ cpolls, isPoll (smbusBase hw t + SMBHSTSTAT) e) ∧
      cpolls.head? = some (Event.rd (smbusBase hw t + SMBHSTSTAT)
        (hw.port (startTransaction (smbusBase hw t) dimmAddr offset (arbitration hw t).trace)
          (smbusBase hw t + SMBHSTSTAT) % 256)) ∧
      (SmbusReadSPD hw dimmAddr offset data t).trace =
        (completion hw dimmAddr offset t).trace ++
          (if (SmbusReadSPD hw dimmAddr offset data t).ok = true then
            [Event.rd (smbusBase hw t + SMBHSTDAT0) (SmbusReadSPD hw dimmAddr offset data t).data]
          else []) ∧
      portWrites (emitted hw dimmAddr offset data t) =
        [(smbusBase hw t + SMBHSTSTAT, 0x06),
         (smbusBase hw t + SMBHSTADD, ((dimmAddr <<< 1) ||| 0x01) % 256),
         (smbusBase hw t + SMBHSTCMD, offset),
         (smbusBase hw t + SMBHSTCTL, 0x0C)] := by
  obtain ⟨polls, st, htr, hst, hpolls⟩ := completion_trace hw dimmAddr offset t hpast
  have hmod : offset % 256 = offset := Nat.mod_eq_of_lt ho
  have hto : ¬ (arbitration hw t).timeout ≤ 0 := by omega
  have hcp : ∀ e ∈ polls ++ [Event.rd (smbusBase hw t + SMBHSTSTAT) st, Event.stall 10],
      isPoll (smbusBase hw t + SMBHSTSTAT) e := by
    intro e he
    simp only [List.mem_append, List.mem_cons, List.mem_singleton, List.not_mem_nil,
      or_false] at he
    rcases he with he | he | he
    · exact hpolls e he
    · exact Or.inr ⟨_, he⟩
    · exact Or.inl he
  have hhead : (polls ++ [Event.rd (smbusBase hw t + SMBHSTSTAT) st, Event.stall 10]).head? =
      some (Event.rd (smbusBase hw t + SMBHSTSTAT)
        (hw.port (startTransaction (smbusBase hw t) dimmAddr offset (arbitration hw t).trace)
          (smbusBase hw t + SMBHSTSTAT) % 256)) := by
    have hlen : (startTransaction (smbusBase hw t) dimmAddr offset (arbitration hw t).trace)
        = t ++ openingEvents hw dimmAddr offset t := by
      rw [arbitration_idle hw t (arbitration_past hw t hpast), afterResolve_eq]
      have h06 : (SMBHSTSTAT_INTR ||| SMBHSTSTAT_ERROR) % 256 = 6 := by decide
      simp [startTransaction, WRITE_PORT_UCHAR, h06, openingEvents, afterResolve_eq]
    obtain ⟨tail, hc⟩ := completionWait_first hw (smbusBase hw t + SMBHSTSTAT) 1000
      (startTransaction (smbusBase hw t) dimmAddr offset (arbitration hw t).trace)
    have hc1 : (completion hw dimmAddr offset t).trace = _ := hc
    rw [htr] at hc1
    rw [hlen] at hc1 ⊢
    rw [List.append_assoc (t ++ openingEvents hw dimmAddr offset t)] at hc1
    rw [List.append_cancel_left hc1]
    rfl
  have hwr : portWrites (openingEvents hw dimmAddr offset t) =
      [(smbusBase hw t + SMBHSTSTAT, 0x06),
       (smbusBase hw t + SMBHSTADD, ((dimmAddr <<< 1) ||| 0x01) % 256),
       (smbusBase hw t + SMBHSTCMD, offset),
       (smbusBase hw t + SMBHSTCTL, 0x0C)] := by
    simp [openingEvents, portWrites, hmod]
  refine ⟨hw.port (afterResolve hw t) (smbusBase hw t + SMBHSTSTAT) % 256,
    polls ++ [Event.rd (smbusBase hw t + SMBHSTSTAT) st, Event.stall 10], ?_, hcp, hhead, ?_⟩
  · rw [htr]; simp [openingEvents, hmod]
  by_cases hc : (completion hw dimmAddr offset t).status &&& SMBHSTSTAT_INTR = 0 ∨
      (completion hw dimmAddr offset t).status &&& SMBHSTSTAT_ERROR ≠ 0
  · have hr : SmbusReadSPD hw dimmAddr offset data t =
        { ok := false, data := data, trace := (completion hw dimmAddr offset t).trace } := by
      unfold SmbusReadSPD
      rw [if_neg hbase, if_neg hto]
      simp only []
      rw [if_pos hc]
    refine ⟨by rw [hr]; simp, ?_⟩
    unfold emitted
    rw [hr]
    simp only [htr, List.append_assoc, List.drop_left]
    rw [portWrites_append, hwr, portWrites_polls _ _ hcp]
    simp
  · have hr : SmbusReadSPD hw dimmAddr offset data t =
        { ok := true,
          data := hw.port (completion hw dimmAddr offset t).trace (smbusBase hw t + SMBHSTDAT0) % 256,
          trace := (completion hw dimmAddr offset t).trace ++
            [Event.rd (smbusBase hw t + SMBHSTDAT0)
              (hw.port (completion hw dimmAddr offset t).trace (smbusBase hw t + SMBHSTDAT0) % 256)] } := by
      unfold SmbusReadSPD
      rw [if_neg hbase, if_neg hto]
      simp only []
      rw [if_neg hc]
      rfl
    refine ⟨by rw [hr]; simp, ?_⟩
    unfold emitted
    rw [hr]
    simp only [htr, List.append_assoc, List.drop_left]
    rw [portWrites_append, hwr, portWrites_append, portWrites_append, portWrites_polls _ _ hpolls]
    simp [portWrites]


/-- C4 at a concrete machine. -/
theorem SmbusReadSPD_writes_witness :
    smbusBase (hwConst 0x02 0x0C 0) [] ≠ 0 ∧ 0 < (arbitration (hwConst 0x02 0x0C 0) []).timeout ∧
    portWrites (emitted (hwConst 0x02 0x0C 0) 0x57 0xFF 0 []) =
      [(smbusBase (hwConst 0x02 0x0C 0) [] + SMBHSTSTAT, 0x06),
       (smbusBase (hwConst 0x02 0x0C 0) [] + SMBHSTADD, ((0x57 <<< 1) ||| 0x01) % 256),
       (smbusBase (hwConst 0x02 0x0C 0) [] + SMBHSTCMD, 0xFF),
       (smbusBase (hwConst 0x02 0x0C 0) [] + SMBHSTCTL, 0x0C)] :=
  have hb : smbusBase (hwConst 0x02 0x0C 0) [] ≠ 0 := by decide
  have hp : 0 < (arbitration (hwConst 0x02 0x0C 0) []).timeout := by
    rw [arbitration_idle _ _ (by decide)]; decide
  ⟨hb, hp,
    (SmbusReadSPD_writes (hwConst 0x02 0x0C 0) 0x57 0xFF 0 [] (by decide) hb hp).elim
      (fun _ h => h.elim (fun _ h2 => h2.2.2.2.2))⟩


/-! ## Claims about `ReadAllSPD` -/

/-- C5 (evaluation at failing inputs): on a machine where every read succeeds and
delivers `0x0C`, the four header reads of slot 0 succeed with header byte 2 equal
to `0x0C`, and the `Size` recorded is 0, not 512; on a machine delivering `0x11`
the `Size` recorded is 0 as well, not 256. -/
theorem ReadAllSPD_size_not_recorded :
    slotCalls (hwGood 0x0C) outBuffer emptyAcq 0 =
      [⟨0x50, 0, true, 0x0C⟩, ⟨0x50, 1, true, 0x0C⟩, ⟨0x50, 2, true, 0x0C⟩,
       ⟨0x50, 3, true, 0x0C⟩] ∧
    ((ReadAllSPD (hwGood 0x0C) outBuffer emptyAcq).1[0]?).map SPD_DATA.Size = some 0 ∧
    slotCalls (hwGood 0x11) outBuffer emptyAcq 0 =
      [⟨0x50, 0, true, 0x11⟩, ⟨0x50, 1, true, 0x11⟩, ⟨0x50, 2, true, 0x11⟩,
       ⟨0x50, 3, true, 0x11⟩] ∧
    ((ReadAllSPD (hwGood 0x11) outBuffer emptyAcq).1[0]?).map SPD_DATA.Size = some 0 := by
  refine ⟨?_, ?_, ?_, ?_⟩
  · simp only [slotCalls, stateBefore, ReadAllSPD_iter, readSlot, call, hwGood,
      SmbusReadSPD_hwSel_ok, SmbusReadSPD_hwSel_data, bodyLoop_empty, emptyAcq, size_stored,
      Bool.true_eq_false, if_false, if_true, List.length_nil, List.drop_zero, List.nil_append,
      List.append_assoc, List.singleton_append, Nat.reduceMod]
    rfl
  · rw [entry_stored _ _ _ 0 (by decide) (by decide)]
    rfl
  · simp only [slotCalls, stateBefore, ReadAllSPD_iter, readSlot, call, hwGood,
      SmbusReadSPD_hwSel_ok, SmbusReadSPD_hwSel_data, bodyLoop_empty, emptyAcq, size_stored,
      Bool.true_eq_false, if_false, if_true, List.length_nil, List.drop_zero, List.nil_append,
      List.append_assoc, List.singleton_append, Nat.reduceMod]
    rfl
  · rw [entry_stored _ _ _ 0 (by decide) (by decide)]
    rfl

/-- C6 (evaluation at a failing input): on a machine where every read succeeds,
slot 0 is recorded with `Valid = TRUE` and `Size = 0`, which is neither 256 nor
512, after exactly four calls (the header reads). -/
theorem ReadAllSPD_valid_with_size_zero :
    (ReadAllSPD (hwGood 0x11) outBuffer emptyAcq).1[0]? =
      some { Data := List.replicate 512 0, Size := 0, DIMMSlot := 0, Valid := true } ∧
    (slotCalls (hwGood 0x11) outBuffer emptyAcq 0).length = 4 := by
  have hv : (readSlot (hwGood 0x11) 0 (stateBefore (hwGood 0x11) outBuffer emptyAcq 0)).1.Valid
      = true := by
    simp only [stateBefore, ReadAllSPD_iter, readSlot, call, hwGood, SmbusReadSPD_hwSel_ok,
      SmbusReadSPD_hwSel_data, bodyLoop_empty, size_stored, Bool.true_eq_false, if_false,
      if_true]
  refine ⟨?_, (slotCalls_spec _ _ _ 0).2.2.2.2.2.2.2.1 hv⟩
  rw [entry_stored _ _ _ 0 (by decide) (by decide), hv]

/-- C7: if one of the header reads of slot `i` fails, `ReadAllSPD` stores for
that slot `Valid = FALSE`, `Size = 0` and an all-zero 512-byte buffer, and every
later slot `k` is still processed: its first header read (address `0x50 + k`,
offset 0) is issued and stands in the final call log after the calls of the
earlier slots, and entry `k` is stored with `DIMMSlot = k`. -/
theorem ReadAllSPD_header_failure (hw : Hw) (spdData : List SPD_DATA) (s : Acq) (i : Nat)
    (hlen : 8 ≤ spdData.length) (hi : i < 8)
    (hfail : ∃ c ∈ (slotCalls hw spdData s i).take 4, c.ok = false) :
    (ReadAllSPD hw spdData s).1[i]? =
      some { Data := List.replicate 512 0, Size := 0, DIMMSlot := i, Valid := false } ∧
    ∀ k, i < k → k < 8 →
      (∃ c ∈ slotCalls hw spdData s k, c.dimmAddr = 0x50 + k ∧ c.offset = 0) ∧
      (∃ post, (ReadAllSPD hw spdData s).2.calls
        = (stateBefore hw spdData s k).calls ++ slotCalls hw spdData s k ++ post) ∧
      ∃ e, (ReadAllSPD hw spdData s).1[k]? = some e ∧ e.DIMMSlot = k := by
  obtain ⟨c, hc, hok⟩ := hfail
  have hmem : c ∈ slotCalls hw spdData s i := List.mem_of_mem_take hc
  have hv : (readSlot hw i (stateBefore hw spdData s i)).1.Valid = false := by
    cases hval : (readSlot hw i (stateBefore hw spdData s i)).1.Valid with
    | false => rfl
    | true =>
      have := (slotCalls_spec hw spdData s i).2.2.2.2.2.2.1.mp hval c hmem
      rw [hok] at this
      cases this
  refine ⟨by rw [entry_stored hw spdData s i hlen hi, hv], ?_⟩
  intro k _ hk
  exact ⟨slotCalls_first hw spdData s k hk, slotCalls_in_log hw spdData s k hk,
    _, entry_stored hw spdData s k hlen hk, rfl⟩

/-- C7 at a machine on which the header reads of slaves `0x54` and above fail:
slot 4. -/
theorem ReadAllSPD_header_failure_witness :
    8 ≤ outBuffer.length ∧ 4 < 8 ∧
    (∃ c ∈ (slotCalls hwHalf outBuffer emptyAcq 4).take 4, c.ok = false) ∧
    (ReadAllSPD hwHalf outBuffer emptyAcq).1[4]? =
      some { Data := List.replicate 512 0, Size := 0, DIMMSlot := 4, Valid := false } := by
  have hf : ∃ c ∈ (slotCalls hwHalf outBuffer emptyAcq 4).take 4, c.ok = false := by
    obtain ⟨c, hc, ha, ho⟩ := slotCalls_first hwHalf outBuffer emptyAcq 4 (by decide)
    have hl := (slotCalls_spec hwHalf outBuffer emptyAcq 4).2.2.1
    refine ⟨c, by rw [List.take_of_length_le hl]; exact hc, ?_⟩
    obtain ⟨d, t, hok, -⟩ := (slotCalls_spec hwHalf outBuffer emptyAcq 4).2.2.2.2.2.1 c hc
    rw [hok, ha, ho]
    unfold hwHalf
    rw [SmbusReadSPD_hwSel_ok]
    decide
  exact ⟨by decide, by decide, hf,
    (ReadAllSPD_header_failure hwHalf outBuffer emptyAcq 4 (by decide) (by decide) hf).1⟩


/-- The validity flag against the call log: for every machine, entry `i` of the
output is valid exactly when every call logged for iteration `i` succeeds.  When
every logged call of slots 0 to 3 succeeds and a header read of each of slots 4
to 7 fails, entries 0 to 3 have `Valid = TRUE` and entries 4 to 7 have
`Valid = FALSE` and `Size = 0`. -/
theorem ReadAllSPD_valid_iff (hw : Hw) (spdData : List SPD_DATA) (s : Acq)
    (hlen : 8 ≤ spdData.length) :
    (∀ i, i < 8 → ∃ e, (ReadAllSPD hw spdData s).1[i]? = some e ∧
      (∀ c ∈ slotCalls hw spdData s i, c.dimmAddr = 0x50 + i) ∧
      (e.Valid = true ↔ ∀ c ∈ slotCalls hw spdData s i, c.ok = true)) ∧
    ((∀ i, i < 4 → ∀ c ∈ slotCalls hw spdData s i, c.ok = true) →
     (∀ i, 4 ≤ i → i < 8 → ∃ c ∈ (slotCalls hw spdData s i).take 4, c.ok = false) →
      ∀ i, i < 8 → ∃ e, (ReadAllSPD hw spdData s).1[i]? = some e ∧
        (i < 4 → e.Valid = true) ∧ (4 ≤ i → e.Valid = false ∧ e.Size = 0)) := by
  have hiff : ∀ i, i < 8 → ∃ e, (ReadAllSPD hw spdData s).1[i]? = some e ∧
      (∀ c ∈ slotCalls hw spdData s i, c.dimmAddr = 0x50 + i) ∧
      (e.Valid = true ↔ ∀ c ∈ slotCalls hw spdData s i, c.ok = true) := by
    intro i hi
    refine ⟨_, entry_stored hw spdData s i hlen hi, ?_, (slotCalls_spec hw spdData s i).2.2.2.2.2.2.1⟩
    intro c hc
    rw [(slotCalls_spec hw spdData s i).2.2.2.2.1 c hc, spdAddresses_getD i hi]
  refine ⟨hiff, ?_⟩
  intro hlow hhigh i hi
  obtain ⟨e, he, -, hv⟩ := hiff i hi
  refine ⟨e, he, ?_, ?_⟩
  · intro h4
    exact hv.mpr (hlow i h4)
  · intro h4
    obtain ⟨c, hc, hok⟩ := hhigh i h4 hi
    have hmem : c ∈ slotCalls hw spdData s i := List.mem_of_mem_take hc
    constructor
    · cases hval : e.Valid with
      | false => rfl
      | true =>
        have := hv.mp hval c hmem
        rw [hok] at this
        cases this
    · rw [entry_stored hw spdData s i hlen hi] at he
      cases he
      rfl

/-- The validity flags on a machine on which the slaves `0x50` to `0x53` answer
every read and the slaves `0x54` to `0x57` answer none. -/
theorem ReadAllSPD_valid_iff_witness :
    8 ≤ outBuffer.length ∧
    ∀ i, i < 8 → ∃ e, (ReadAllSPD hwHalf outBuffer emptyAcq).1[i]? = some e ∧
      (i < 4 → e.Valid = true) ∧ (4 ≤ i → e.Valid = false ∧ e.Size = 0) := by
  have hreal : ∀ i, i < 8 → ∀ c ∈ slotCalls hwHalf outBuffer emptyAcq i,
      c.ok = decide (((((0x50 + i) <<< 1) ||| 0x01) % 256) < 0xA9) := by
    intro i hi c hc
    obtain ⟨d, t, hok, -⟩ := (slotCalls_spec hwHalf outBuffer emptyAcq i).2.2.2.2.2.1 c hc
    have ha := (slotCalls_spec hwHalf outBuffer emptyAcq i).2.2.2.2.1 c hc
    rw [spdAddresses_getD i hi] at ha
    rw [hok, ha]
    unfold hwHalf
    rw [SmbusReadSPD_hwSel_ok]
  refine ⟨by decide, (ReadAllSPD_valid_iff hwHalf outBuffer emptyAcq (by decide)).2 ?_ ?_⟩
  · intro i hi c hc
    rw [hreal i (by omega) c hc]
    interval_cases i <;> decide
  · intro i h4 hi
    obtain ⟨c, hc, -⟩ := slotCalls_first hwHalf outBuffer emptyAcq i hi
    have hl := (slotCalls_spec hwHalf outBuffer emptyAcq i).2.2.1
    refine ⟨c, by rw [List.take_of_length_le hl]; exact hc, ?_⟩
    rw [hreal i hi c hc]
    interval_cases i <;> decide

/-- C9: for every machine, `ReadAllSPD` stores exactly the entries 0 to 7 of the
output buffer (the length is unchanged and every entry from index 8 on is as it
was); entry `i` has `DIMMSlot = i` and is the result of iteration `i`, all of
whose calls are addressed to slave `0x50 + i`; and the call log of the whole run
is the calls of iterations 0, 1, .., 7 in that order, so no call lies outside
them. -/
theorem ReadAllSPD_slot_order (hw : Hw) (spdData : List SPD_DATA) (s : Acq)
    (hlen : 8 ≤ spdData.length) :
    (ReadAllSPD hw spdData s).1.length = spdData.length ∧
    (∀ i, 8 ≤ i → (ReadAllSPD hw spdData s).1[i]? = spdData[i]?) ∧
    (∀ i, i < 8 → ∃ e, (ReadAllSPD hw spdData s).1[i]? = some e ∧ e.DIMMSlot = i ∧
      e = (readSlot hw i (stateBefore hw spdData s i)).1 ∧
      slotCalls hw spdData s i ≠ [] ∧
      ∀ c ∈ slotCalls hw spdData s i, c.dimmAddr = 0x50 + i) ∧
    (ReadAllSPD hw spdData s).2.calls =
      s.calls ++ slotCalls hw spdData s 0 ++ slotCalls hw spdData s 1 ++
        slotCalls hw spdData s 2 ++ slotCalls hw spdData s 3 ++ slotCalls hw spdData s 4 ++
        slotCalls hw spdData s 5 ++ slotCalls hw spdData s 6 ++ slotCalls hw spdData s 7 := by
  refine ⟨iter_length hw spdData s _, fun i hi => iter_untouched hw spdData s _ i hi, ?_, ?_⟩
  · intro i hi
    have hst := iter_stored hw spdData s spdAddresses.length i hi hlen
    have hen := entry_stored hw spdData s i hlen hi
    refine ⟨_, hst, ?_, rfl, (slotCalls_spec hw spdData s i).2.1, ?_⟩
    · have h2 : (ReadAllSPD hw spdData s).1[i]? = _ := hst
      rw [hen] at h2
      rw [← Option.some.inj h2]
    · intro c hc
      rw [(slotCalls_spec hw spdData s i).2.2.2.2.1 c hc, spdAddresses_getD i hi]
  · have h := fun k => (slotCalls_spec hw spdData s k).1
    have h8 : (ReadAllSPD hw spdData s).2.calls = (stateBefore hw spdData s (7 + 1)).calls := rfl
    have h0 : (stateBefore hw spdData s 0).calls = s.calls := rfl
    rw [h8, h 7, h 6, h 5, h 4, h 3, h 2, h 1, h 0, h0]

/-- C9 at a machine with no controller. -/
theorem ReadAllSPD_slot_order_witness :
    8 ≤ outBuffer.length ∧
    (ReadAllSPD hwUnmapped outBuffer emptyAcq).1.length = outBuffer.length ∧
    ∀ i, i < 8 → ∃ e, (ReadAllSPD hwUnmapped outBuffer emptyAcq).1[i]? = some e ∧ e.DIMMSlot = i ∧
      e = (readSlot hwUnmapped i (stateBefore hwUnmapped outBuffer emptyAcq i)).1 ∧
      slotCalls hwUnmapped outBuffer emptyAcq i ≠ [] ∧
      ∀ c ∈ slotCalls hwUnmapped outBuffer emptyAcq i, c.dimmAddr = 0x50 + i :=
  ⟨by decide, (ReadAllSPD_slot_order hwUnmapped outBuffer emptyAcq (by decide)).1,
    (ReadAllSPD_slot_order hwUnmapped outBuffer emptyAcq (by decide)).2.2.1⟩

/-- C10 (evaluation at a failing input): on a machine where the module at `0x50`
answers offsets 0 to 3 and every read at offset 4 fails whenever it is issued,
`ReadAllSPD` issues for slot 0 the four header reads and no body read, and
records the slot with `Valid = TRUE` (and `Size = 0`). -/
theorem ReadAllSPD_body_never_read :
    (∀ (d : Nat) (t : List Event), (SmbusReadSPD hwBody 0x50 4 d t).ok = false) ∧
    slotCalls hwBody outBuffer emptyAcq 0 =
      [⟨0x50, 0, true, 0x0C⟩, ⟨0x50, 1, true, 0x0C⟩, ⟨0x50, 2, true, 0x0C⟩,
       ⟨0x50, 3, true, 0x0C⟩] ∧
    (ReadAllSPD hwBody outBuffer emptyAcq).1[0]? =
      some { Data := List.replicate 512 0, Size := 0, DIMMSlot := 0, Valid := true } := by
  have hc : slotCalls hwBody outBuffer emptyAcq 0 =
      [⟨0x50, 0, true, 0x0C⟩, ⟨0x50, 1, true, 0x0C⟩, ⟨0x50, 2, true, 0x0C⟩,
       ⟨0x50, 3, true, 0x0C⟩] := by
    simp only [slotCalls, stateBefore, ReadAllSPD_iter, readSlot, call, hwBody,
      SmbusReadSPD_hwSel_ok, SmbusReadSPD_hwSel_data, bodyLoop_empty, emptyAcq, size_stored,
      Nat.reduceMod, Nat.reduceLT, decide_True, Nat.zero_mod,
      Bool.true_eq_false, if_false, if_true, List.length_nil, List.drop_zero, List.nil_append,
      List.append_assoc, List.singleton_append]
    rfl
  refine ⟨?_, hc, ?_⟩
  · intro d t
    unfold hwBody
    rw [SmbusReadSPD_hwSel_ok]
    decide
  · rw [entry_stored _ _ _ 0 (by decide) (by decide)]
    have hv := (slotCalls_spec hwBody outBuffer emptyAcq 0).2.2.2.2.2.2.1
    rw [hc] at hv
    rw [hv.mpr (by decide)]


/-! ## Basic facts about the decoder -/

theorem byteAt_lt (spd : SPD_DATA) (hwf : spd.WellFormed) (k : Nat) : byteAt spd k < 256 := by
  unfold byteAt
  rw [List.getD_eq_getElem?_getD]
  cases h : spd.Data[k]? with
  | none => simp
  | some b =>
    simp only [Option.getD_some]
    exact hwf.2.1 b (List.getElem?_mem h)

theorem little_endian16 (lo hi : Nat) (hlo : lo < 256) (hhi : hi < 256) :
    (lo ||| (hi <<< 8)) % 65536 = lo + 256 * hi := by
  have h := Nat.mul_add_lt_is_or (i := 8) (b := lo) hlo hi
  rw [Nat.shiftLeft_eq, Nat.lor_comm, Nat.mul_comm hi (2 ^ 8), ← h]
  have e : (2 : Nat) ^ 8 = 256 := by norm_num
  rw [e]
  omega

theorem timing16_eq (spd : SPD_DATA) (hwf : spd.WellFormed) (lo hi : Nat) :
    timing16 spd lo hi = byteAt spd lo + 256 * byteAt spd hi ∧ timing16 spd lo hi < 65536 := by
  have h1 := byteAt_lt spd hwf lo
  have h2 := byteAt_lt spd hwf hi
  unfold timing16
  rw [little_endian16 _ _ h1 h2]
  exact ⟨rfl, by omega⟩

theorem jedec_ne (x y : String) : "JEDEC ID: " ++ x ++ "-" ++ y ≠ "Not specified" := by
  intro h
  have h2 := congrArg (fun s : String => s.data.head?) h
  simp [String.data_append] at h2

theorem manufacturerText_eq (spd : SPD_DATA) :
    manufacturerText spd = "Not specified" ↔ byteAt spd 320 = 0 := by
  unfold manufacturerText
  by_cases h : byteAt spd 320 = 0
  · simp [h]
  · simp only [ne_eq, h, not_false_eq_true, if_true, iff_false]
    exact jedec_ne _ _

theorem byteAt_imageWith_320 (fill b size slot : Nat) :
    byteAt (imageWith fill b size slot) 320 = b := by
  unfold byteAt imageWith
  rw [List.getD_eq_getElem?_getD, List.getElem?_set_self (by rw [List.length_replicate]; norm_num)]
  rfl

theorem byteAt_imageWith_ne (fill b size slot k : Nat) (hk : k ≠ 320) (h512 : k < 512) :
    byteAt (imageWith fill b size slot) k = fill := by
  unfold byteAt imageWith
  rw [List.getD_eq_getElem?_getD, List.getElem?_set_ne (Ne.symm hk),
    List.getElem?_eq_getElem (by rw [List.length_replicate]; exact h512), List.getElem_replicate]
  rfl

theorem imageWith_wellFormed (fill b size slot : Nat) (hf : fill < 256) (hb : b < 256)
    (hs : size < 256) (hd : slot < 256) : (imageWith fill b size slot).WellFormed := by
  refine ⟨by simp only [imageWith, List.length_set, List.length_replicate], ?_, hs, hd⟩
  intro x hx
  rcases List.mem_or_eq_of_mem_set hx with h | h
  · rw [List.eq_of_mem_replicate h]; exact hf
  · rw [h]; exact hb

/-! ## Claims about the decoder -/

/-- C11 (evaluation at failing inputs): the size computed for image byte 4 is
the exact value `2^density * (banks + 1) * 256` for every byte below `0xA7`, in
particular 4096 for `0b00011001`; for byte `0xA7` (density 20, banks 7) the exact
value is 2147483648 and the value computed is 18446744071562067968, and for byte
`0xC0` (density 24, banks 0) the exact value is 4294967296 and the value
computed is 0. -/
theorem moduleSizeMB_int_overflow :
    (List.range 0xA7).all (fun b => moduleSizeMB b == exactSizeMB b) = true ∧
    moduleSizeMB 0b00011001 = 4096 ∧
    exactSizeMB 0xA7 = 2147483648 ∧ moduleSizeMB 0xA7 = 18446744071562067968 ∧
    exactSizeMB 0xC0 = 4294967296 ∧ moduleSizeMB 0xC0 = 0 := by
  decide

/-- C12 (counterexample): two images of the same length 255 that agree on every
byte below that length, and differ only in the buffer byte at offset 320, are
decoded differently: one is reported "Not specified", the other
"JEDEC ID: 44-0". -/
theorem summaryFields_reads_beyond_length :
    (imageWith 0 0 255 3).Size = (imageWith 0 0x2C 255 3).Size ∧
    (imageWith 0 0 255 3).Data.take 255 = (imageWith 0 0x2C 255 3).Data.take 255 ∧
    (summaryFields (imageWith 0 0 255 3)).manufacturer = "Not specified" ∧
    (summaryFields (imageWith 0 0x2C 255 3)).manufacturer = "JEDEC ID: 44-0" ∧
    summaryFields (imageWith 0 0 255 3) ≠ summaryFields (imageWith 0 0x2C 255 3) := by
  have b1 : byteAt (imageWith 0 0 255 3) 320 = 0 := byteAt_imageWith_320 _ _ _ _
  have b2 : byteAt (imageWith 0 0x2C 255 3) 320 = 0x2C := byteAt_imageWith_320 _ _ _ _
  have b3 : byteAt (imageWith 0 0x2C 255 3) 321 = 0 :=
    byteAt_imageWith_ne _ _ _ _ _ (by decide) (by decide)
  have m1 : (summaryFields (imageWith 0 0 255 3)).manufacturer = "Not specified" := by
    simp only [summaryFields, manufacturerText, b1]
    rfl
  have m2 : (summaryFields (imageWith 0 0x2C 255 3)).manufacturer = "JEDEC ID: 44-0" := by
    simp only [summaryFields, manufacturerText, b2, b3]
    decide
  refine ⟨rfl, ?_, m1, m2, ?_⟩
  · simp only [imageWith]
    rw [List.take_set_of_lt _ _ (by norm_num), List.take_set_of_lt _ _ (by norm_num)]
  · intro h
    have h2 := congrArg SpdSummary.manufacturer h
    rw [m1, m2] at h2
    exact absurd h2 (by decide)

/-- C12 (amended): the fields decoded by `PrintSPDSummary` depend only on
`DIMMSlot` and on the buffer bytes at offsets 2, 4, 18 to 25, 320 and 321,
whatever the length of the image: two images that agree on these decode
identically, and the manufacturer is reported "Not specified" exactly when the
buffer byte at offset 320 is 0. -/
theorem summaryFields_depends_on (a b : SPD_DATA) (hslot : a.DIMMSlot = b.DIMMSlot)
    (h : ∀ k ∈ [2, 4, 18, 19, 20, 21, 22, 23, 24, 25, 320, 321], byteAt a k = byteAt b k) :
    summaryFields a = summaryFields b ∧
    ((summaryFields a).manufacturer = "Not specified" ↔ byteAt a 320 = 0) := by
  refine ⟨?_, manufacturerText_eq a⟩
  simp only [List.mem_cons, List.mem_singleton, List.not_mem_nil, or_false, forall_eq_or_imp,
    forall_eq] at h
  obtain ⟨h2, h4, h18, h19, h20, h21, h22, h23, h24, h25, h320, h321⟩ := h
  simp only [summaryFields, manufacturerText, timing16, hslot, h2, h4, h18, h19, h20, h21, h22,
    h23, h24, h25, h320, h321]

/-- C12 (amended) at two images of different lengths and different bytes
elsewhere. -/
theorem summaryFields_depends_on_witness :
    summaryFields (imageWith 0 0x2C 16 3) = summaryFields (imageWith 0 0x2C 255 3) ∧
    ((summaryFields (imageWith 0 0x2C 16 3)).manufacturer = "Not specified" ↔
      byteAt (imageWith 0 0x2C 16 3) 320 = 0) :=
  summaryFields_depends_on (imageWith 0 0x2C 16 3) (imageWith 0 0x2C 255 3) rfl (by decide)

/-- C13: for every image, the four timing fields decoded by `PrintSPDSummary` are
the 16-bit little-endian values of their byte pairs, `Data[lo] + 256 * Data[hi]`
for the pairs (18,19), (20,21), (22,23), (24,25), each below 65536: the conversion
to `UINT16` loses nothing. -/
theorem summaryFields_timings (spd : SPD_DATA) (hwf : spd.WellFormed) :
    ((summaryFields spd).tCL = byteAt spd 18 + 256 * byteAt spd 19 ∧
      (summaryFields spd).tCL < 65536) ∧
    ((summaryFields spd).tRCD = byteAt spd 20 + 256 * byteAt spd 21 ∧
      (summaryFields spd).tRCD < 65536) ∧
    ((summaryFields spd).tRP = byteAt spd 22 + 256 * byteAt spd 23 ∧
      (summaryFields spd).tRP < 65536) ∧
    ((summaryFields spd).tRAS = byteAt spd 24 + 256 * byteAt spd 25 ∧
      (summaryFields spd).tRAS < 65536) :=
  ⟨timing16_eq spd hwf 18 19, timing16_eq spd hwf 20 21, timing16_eq spd hwf 22 23,
    timing16_eq spd hwf 24 25⟩


/-- C13 at an image filled with `0x41`. -/
theorem summaryFields_timings_witness :
    (imageWith 0x41 0 16 3).WellFormed ∧
    (summaryFields (imageWith 0x41 0 16 3)).tCL
      = byteAt (imageWith 0x41 0 16 3) 18 + 256 * byteAt (imageWith 0x41 0 16 3) 19 ∧
    (summaryFields (imageWith 0x41 0 16 3)).tCL < 65536 :=
  ⟨imageWith_wellFormed 0x41 0 16 3 (by decide) (by decide) (by decide) (by decide),
    (summaryFields_timings (imageWith 0x41 0 16 3)
      (imageWith_wellFormed 0x41 0 16 3 (by decide) (by decide) (by decide) (by decide))).1⟩

theorem imageWith_take (fill b size slot n : Nat) (hn : n < 320) :
    (imageWith fill b size slot).Data.take n = List.replicate n fill := by
  simp only [imageWith]
  rw [List.take_set_of_lt _ _ hn, List.take_replicate]
  congr 1
  omega

/-- C14: for every image, when the artifact file opens, the content
`PrintSPDSummary` leaves in the file named `dimm<slot>.spd` (the text "dimm",
the decimal slot number, the text ".spd") is exactly `Data[0..Size)`: `Size`
bytes, byte `j` being `Data[j]`; no file of another name changes; persisting
the same image again leaves the files as they are after the first time.  When
the file does not open nothing is written. -/
theorem PrintSPDSummary_artifact (fs : Files) (spd : SPD_DATA) (hwf : spd.WellFormed) :
    (PrintSPDSummary true fs spd).files ("dimm" ++ toString spd.DIMMSlot ++ ".spd")
      = some (spd.Data.take spd.Size) ∧
    (spd.Data.take spd.Size).length = spd.Size ∧
    (∀ j, j < spd.Size → (spd.Data.take spd.Size)[j]? = some (byteAt spd j)) ∧
    (∀ name, name ≠ "dimm" ++ toString spd.DIMMSlot ++ ".spd" →
      (PrintSPDSummary true fs spd).files name = fs name) ∧
    (PrintSPDSummary true (PrintSPDSummary true fs spd).files spd).files
      = (PrintSPDSummary true fs spd).files ∧
    (PrintSPDSummary false fs spd).files = fs := by
  have hlen : spd.Size ≤ spd.Data.length := by
    have h1 := hwf.1
    have h2 := hwf.2.2.1
    omega
  have hname : artifactName spd = "dimm" ++ toString spd.DIMMSlot ++ ".spd" := rfl
  refine ⟨?_, ?_, ?_, ?_, ?_, ?_⟩
  · rw [← hname]
    simp [PrintSPDSummary, saveArtifact]
  · rw [List.length_take]
    omega
  · intro j hj
    rw [List.getElem?_take_of_lt hj]
    unfold byteAt
    rw [List.getD_eq_getElem?_getD, List.getElem?_eq_getElem (by omega)]
    rfl
  · intro name hne
    rw [← hname] at hne
    simp [PrintSPDSummary, saveArtifact, Function.update_noteq hne]
  · simp [PrintSPDSummary, saveArtifact]
  · simp [PrintSPDSummary, saveArtifact]

/-- C14 at an image of 18 bytes `0x41` for slot 3, starting from no files: the
run leaves `dimm3.spd` with these 18 bytes and no `dimm4.spd`; a following run
for an image of 2 bytes `0x42` for slot 4 leaves `dimm4.spd` with its 2 bytes and
`dimm3.spd` as it was. -/
theorem PrintSPDSummary_artifact_witness :
    (imageWith 0x41 0 18 3).WellFormed ∧ (imageWith 0x42 0 2 4).WellFormed ∧
    (PrintSPDSummary true noFiles (imageWith 0x41 0 18 3)).files "dimm3.spd"
      = some [0x41, 0x41, 0x41, 0x41, 0x41, 0x41, 0x41, 0x41, 0x41, 0x41, 0x41, 0x41, 0x41,
          0x41, 0x41, 0x41, 0x41, 0x41] ∧
    (PrintSPDSummary true noFiles (imageWith 0x41 0 18 3)).files "dimm4.spd" = none ∧
    (PrintSPDSummary true (PrintSPDSummary true noFiles (imageWith 0x41 0 18 3)).files
        (imageWith 0x42 0 2 4)).files "dimm4.spd" = some [0x42, 0x42] ∧
    (PrintSPDSummary true (PrintSPDSummary true noFiles (imageWith 0x41 0 18 3)).files
        (imageWith 0x42 0 2 4)).files "dimm3.spd"
      = some [0x41, 0x41, 0x41, 0x41, 0x41, 0x41, 0x41, 0x41, 0x41, 0x41, 0x41, 0x41, 0x41,
          0x41, 0x41, 0x41, 0x41, 0x41] := by
  have hwf3 := imageWith_wellFormed 0x41 0 18 3 (by decide) (by decide) (by decide) (by decide)
  have hwf4 := imageWith_wellFormed 0x42 0 2 4 (by decide) (by decide) (by decide) (by decide)
  have n3 : "dimm" ++ toString (imageWith 0x41 0 18 3).DIMMSlot ++ ".spd" = "dimm3.spd" := by
    decide
  have n4 : "dimm" ++ toString (imageWith 0x42 0 2 4).DIMMSlot ++ ".spd" = "dimm4.spd" := by
    decide
  have t3 := PrintSPDSummary_artifact noFiles (imageWith 0x41 0 18 3) hwf3
  have t4 := PrintSPDSummary_artifact
    (PrintSPDSummary true noFiles (imageWith 0x41 0 18 3)).files (imageWith 0x42 0 2 4) hwf4
  rw [n3] at t3
  rw [n4] at t4
  have c3 : (imageWith 0x41 0 18 3).Data.take (imageWith 0x41 0 18 3).Size
      = [0x41, 0x41, 0x41, 0x41, 0x41, 0x41, 0x41, 0x41, 0x41, 0x41, 0x41, 0x41, 0x41,
          0x41, 0x41, 0x41, 0x41, 0x41] := imageWith_take 0x41 0 18 3 18 (by decide)
  have c4 : (imageWith 0x42 0 2 4).Data.take (imageWith 0x42 0 2 4).Size = [0x42, 0x42] :=
    imageWith_take 0x42 0 2 4 2 (by decide)
  have a3 := t3.1
  have a4 := t4.1
  rw [c3] at a3
  rw [c4] at a4
  refine ⟨hwf3, hwf4, a3, ?_, a4, ?_⟩
  · rw [t3.2.2.2.1 "dimm4.spd" (by decide)]
    rfl
  · rw [t4.2.2.2.1 "dimm3.spd" (by decide)]
    exact a3

/-! ## The dump -/

theorem cells_split (n : Nat) (hn : n ≤ 16) (A : Nat → String) (pad : String) :
    (List.range 16).map (fun j => if j < n then A j else pad)
      = (List.range n).map A ++ List.replicate (16 - n) pad := by
  interval_cases n <;> rfl

theorem shown_indices (n : Nat) (hn : n ≤ 16) :
    (List.range 16).filter (fun j => decide (j < n)) = List.range n := by
  interval_cases n <;> rfl

theorem range_map_getD (D : List Nat) (i n : Nat) (h : i + n ≤ D.length) :
    (List.range n).map (fun j => D.getD (i + j) 0) = (D.drop i).take n := by
  induction n with
  | zero => simp
  | succ n ih =>
    rw [List.range_succ, List.map_append, ih (by omega), List.take_succ]
    congr 1
    have hlt : i + n < D.length := by omega
    simp [List.getD_eq_getElem?_getD, List.getElem?_drop, List.getElem?_eq_getElem hlt]

theorem asciiOf_eq (b : Nat) (hb : b < 256) :
    asciiOf b = if 32 ≤ b ∧ b ≤ 126 then Char.ofNat b else '.' := by
  unfold asciiOf
  by_cases h : b < 128
  · simp only [h, if_true]
    by_cases h2 : 32 ≤ b ∧ b ≤ 126
    · rw [if_pos (by omega), if_pos h2]
      simp
    · rw [if_neg (by omega), if_neg h2]
  · simp only [h, if_false]
    rw [if_neg (by omega), if_neg (by omega)]

theorem rowBytes_length (spd : SPD_DATA) (hwf : spd.WellFormed) (r : Nat) :
    (rowBytes spd r).length = min (16 * r + 16) spd.Size - 16 * r := by
  have h1 := hwf.1
  have h2 := hwf.2.2.1
  unfold rowBytes
  rw [List.length_take, List.length_drop]
  omega

theorem rowBytes_lt (spd : SPD_DATA) (hwf : spd.WellFormed) (r : Nat) :
    ∀ b ∈ rowBytes spd r, b < 256 := by
  intro b hb
  exact hwf.2.1 b (List.mem_of_mem_drop (List.mem_of_mem_take hb))

/-- The row printed for loop index `16 * r`, in terms of the bytes it covers. -/
theorem dumpRow_eq (spd : SPD_DATA) (hwf : spd.WellFormed) (r : Nat) :
    dumpRow spd (16 * r) =
      { label := hexUpper 3 (16 * r) ++ ": "
        cells := (rowBytes spd r).map (fun b => hexUpper 2 b ++ " ") ++
          List.replicate (16 - (rowBytes spd r).length) "   "
        ascii := (rowBytes spd r).map (fun b => if 32 ≤ b ∧ b ≤ 126 then Char.ofNat b else '.') } := by
  have h1 := hwf.1
  have h2 := hwf.2.2.1
  have hn : min (16 * r + 16) spd.Size - 16 * r ≤ 16 := by omega
  have hcond : ∀ j ∈ List.range 16,
      (16 * r + j < spd.Size) = (j < min (16 * r + 16) spd.Size - 16 * r) := by
    intro j hj
    rw [List.mem_range] at hj
    apply propext
    omega
  have hbytes : (List.range (min (16 * r + 16) spd.Size - 16 * r)).map
      (fun j => byteAt spd (16 * r + j)) = rowBytes spd r := by
    unfold byteAt rowBytes
    by_cases hr : 16 * r ≤ spd.Size
    · exact range_map_getD spd.Data (16 * r) _ (by omega)
    · have h0 : min (16 * r + 16) spd.Size - 16 * r = 0 := by omega
      rw [h0]
      simp
  unfold dumpRow
  congr 1
  · rw [rowBytes_length spd hwf r, ← hbytes, List.map_map]
    refine Eq.trans ?_
      (cells_split _ hn (fun j => hexUpper 2 (byteAt spd (16 * r + j)) ++ " ") "   ")
    apply List.map_congr_left
    intro j hj
    simp only [hcond j hj, Function.comp]
  · have hf : (List.range 16).filter (fun j => decide (16 * r + j < spd.Size))
        = List.range (min (16 * r + 16) spd.Size - 16 * r) := by
      rw [← shown_indices _ hn]
      apply List.filter_congr
      intro j hj
      simp only [hcond j hj]
    rw [hf]
    have hasc : (rowBytes spd r).map (fun b => if 32 ≤ b ∧ b ≤ 126 then Char.ofNat b else '.')
        = (rowBytes spd r).map asciiOf := by
      apply List.map_congr_left
      intro b hb
      rw [asciiOf_eq b (rowBytes_lt spd hwf r b hb)]
    rw [hasc, ← hbytes, List.map_map]
    rfl

theorem dumpRows_eq (spd : SPD_DATA) (m : Nat) : ∀ r : Nat, (spd.Size + 15) / 16 - r = m →
    dumpRows spd (16 * r) = (List.range m).map (fun k => dumpRow spd (16 * (r + k))) := by
  induction m with
  | zero =>
    intro r hr
    rw [dumpRows, if_neg (by omega)]
    rfl
  | succ m ih =>
    intro r hr
    rw [dumpRows, if_pos (by omega)]
    have e : 16 * r + 16 = 16 * (r + 1) := by ring
    rw [e, ih (r + 1) (by omega), List.range_succ_eq_map, List.map_cons, List.map_map]
    congr 1
    apply List.map_congr_left
    intro k _
    simp only [Function.comp]
    congr 2
    omega

theorem hexUpper_label (r : Nat) (hr : r < 16) :
    hexUpper 3 (16 * r) ++ ": " = String.mk ['0', hexDigit r, '0', ':', ' '] := by
  interval_cases r <;> rfl

theorem hexUpper_cell (b : Nat) (hb : b < 256) :
    hexUpper 2 b ++ " " = String.mk [hexDigit (b / 16), hexDigit (b % 16), ' '] := by
  interval_cases b <;> rfl

theorem list_of_two {α : Type} (l : List α) (a b : α) (hl : l.length = 2)
    (h0 : l[0]? = some a) (h1 : l[1]? = some b) : l = [a, b] := by
  match l, hl with
  | [x, y], _ =>
    simp only [List.getElem?_cons_zero, List.getElem?_cons_succ, Option.some.injEq] at h0 h1
    rw [h0, h1]

/-- C15: for every image, `DecodeSPD` prints `ceil(Size / 16)` rows.  Row `r` is
labelled with the three hexadecimal digits of its offset `16 * r` (`0`, the digit
`r`, `0`) followed by a colon and a blank; its cells are, in order, the two
upper-case hexadecimal digits and a blank of each byte of
`Data[16r .. min(16r+16, Size))`, then blank cells up to 16; its ASCII column
renders each of these bytes `b` as the character `b` when `32 <= b <= 126` and
as `.` otherwise.  Nothing at an offset at or beyond `Size` is shown. -/
theorem DecodeSPD_rows (spd : SPD_DATA) (hwf : spd.WellFormed) :
    (DecodeSPD spd).2.length = (spd.Size + 15) / 16 ∧
    ∀ r, r < (spd.Size + 15) / 16 →
      (DecodeSPD spd).2[r]? = some
        { label := String.mk ['0', hexDigit r, '0', ':', ' ']
          cells := (rowBytes spd r).map
              (fun b => String.mk [hexDigit (b / 16), hexDigit (b % 16), ' ']) ++
            List.replicate (16 - (rowBytes spd r).length) "   "
          ascii := (rowBytes spd r).map
            (fun b => if 32 ≤ b ∧ b ≤ 126 then Char.ofNat b else '.') } ∧
      (rowBytes spd r).length = min (16 * r + 16) spd.Size - 16 * r ∧
      0 < (rowBytes spd r).length := by
  have hrows : (DecodeSPD spd).2
      = (List.range ((spd.Size + 15) / 16)).map (fun k => dumpRow spd (16 * k)) := by
    have h := dumpRows_eq spd ((spd.Size + 15) / 16) 0 (by omega)
    simp only [Nat.mul_zero, Nat.zero_add] at h
    exact h
  refine ⟨by rw [hrows]; simp, ?_⟩
  intro r hr
  have hs := hwf.2.2.1
  have hr16 : r < 16 := by omega
  have hcells : (rowBytes spd r).map (fun b => hexUpper 2 b ++ " ")
      = (rowBytes spd r).map (fun b => String.mk [hexDigit (b / 16), hexDigit (b % 16), ' ']) := by
    apply List.map_congr_left
    intro b hb
    exact hexUpper_cell b (rowBytes_lt spd hwf r b hb)
  refine ⟨?_, rowBytes_length spd hwf r, ?_⟩
  · rw [hrows, List.getElem?_map, List.getElem?_range hr]
    simp only [Option.map_some', dumpRow_eq spd hwf r, hexUpper_label r hr16, hcells]
  · rw [rowBytes_length spd hwf r]
    omega

/-- C15 at an image of 18 bytes `0x41` for slot 3: the text printed is the
heading, a row `000:` with sixteen cells `41` and sixteen characters `A`, and a
row `010:` with two cells `41`, fourteen blank cells and two characters `A`. -/
theorem DecodeSPD_rows_witness :
    (imageWith 0x41 0 18 3).WellFormed ∧
    (DecodeSPD (imageWith 0x41 0 18 3)).1 = "\nDetailed SPD Data for DIMM 3:\n" ∧
    (DecodeSPD (imageWith 0x41 0 18 3)).2.map DumpRow.text =
      ["000: 41 41 41 41 41 41 41 41 41 41 41 41 41 41 41 41  AAAAAAAAAAAAAAAA\n",
       "010: 41 41                                            AA\n"] := by
  have hwf := imageWith_wellFormed 0x41 0 18 3 (by decide) (by decide) (by decide) (by decide)
  have h := DecodeSPD_rows (imageWith 0x41 0 18 3) hwf
  have b0 : rowBytes (imageWith 0x41 0 18 3) 0 = List.replicate 16 0x41 := by
    unfold rowBytes
    exact imageWith_take 0x41 0 18 3 16 (by decide)
  have b1 : rowBytes (imageWith 0x41 0 18 3) 1 = List.replicate 2 0x41 := by
    unfold rowBytes
    have e : min (16 * 1 + 16) (imageWith 0x41 0 18 3).Size - 16 * 1 = 2 := by decide
    rw [e, List.take_drop, imageWith_take 0x41 0 18 3 (16 * 1 + 2) (by decide)]
    decide
  have r0 := (h.2 0 (by decide)).1
  have r1 := (h.2 1 (by decide)).1
  rw [b0] at r0
  rw [b1] at r1
  have hl : (DecodeSPD (imageWith 0x41 0 18 3)).2.length = 2 := h.1
  refine ⟨hwf, by decide, ?_⟩
  rw [list_of_two _ _ _ hl r0 r1]
  decide

/-! ## Poll counts -/

theorem readsAt_pollEvents (port : Nat) (vs : List Nat) :
    readsAt port (pollEvents port vs) = vs := by
  induction vs with
  | nil => rfl
  | cons v vs ih =>
    simp only [readsAt, pollEvents, portReads, List.filter_cons, if_true, decide_True,
      List.map_cons] at ih ⊢
    rw [ih]

theorem portWrites_pollEvents (port : Nat) (vs : List Nat) :
    portWrites (pollEvents port vs) = [] := by
  induction vs with
  | nil => rfl
  | cons v vs ih => simpa [pollEvents, portWrites] using ih

/-- The arbitration loop entered with `timeout = n + 1`: it polls `n + 1` times
and leaves `timeout = 0` when the tested byte has the busy bit, and polls once
and leaves `timeout` as it was otherwise. -/
theorem arbitrationWait_polls (hw : Hw) (port status : Nat) (n : Nat) : ∀ t : List Event,
    ∃ vs, (arbitrationWait hw port status ((n : Int) + 1) t).trace = t ++ pollEvents port vs ∧
      vs.length = (if status &&& SMBHSTSTAT_BUSY ≠ 0 then n + 1 else 1) ∧
      (arbitrationWait hw port status ((n : Int) + 1) t).timeout
        = (if status &&& SMBHSTSTAT_BUSY ≠ 0 then 0 else (n : Int) + 1) := by
  by_cases hb : status &&& SMBHSTSTAT_BUSY ≠ 0
  · have key : ∀ (m : Nat) (t : List Event), ∃ vs,
        (arbitrationWait hw port status ((m : Int) + 1) t).trace = t ++ pollEvents port vs ∧
        vs.length = m + 1 ∧
        (arbitrationWait hw port status ((m : Int) + 1) t).timeout = 0 := by
      intro m
      induction m with
      | zero =>
        intro t
        rw [arbitrationWait]
        refine ⟨[hw.port t port % 256], ?_⟩
        simp only [READ_PORT_UCHAR, KeStallExecutionProcessor]
        rw [if_pos hb]
        simp [pollEvents]
      | succ m ih =>
        intro t
        rw [arbitrationWait]
        have hpos : (((m + 1 : Nat) : Int) + 1 - 1 > 0) := by omega
        have heq : (((m + 1 : Nat) : Int) + 1 - 1) = (m : Int) + 1 := by omega
        obtain ⟨vs, h1, h2, h3⟩ := ih (KeStallExecutionProcessor 10 (READ_PORT_UCHAR hw port t).2)
        refine ⟨hw.port t port % 256 :: vs, ?_⟩
        rw [if_pos hb, dif_pos hpos, heq]
        refine ⟨?_, by simp [h2], h3⟩
        rw [h1]
        simp [READ_PORT_UCHAR, KeStallExecutionProcessor, pollEvents]
    intro t
    obtain ⟨vs, h1, h2, h3⟩ := key n t
    exact ⟨vs, h1, by rw [if_pos hb]; exact h2, by rw [if_pos hb]; exact h3⟩
  · intro t
    have hb0 : status &&& SMBHSTSTAT_BUSY = 0 := by simpa using hb
    rw [arbitrationWait_idle hw port status _ t hb0]
    refine ⟨[hw.port t port % 256], ?_⟩
    rw [if_neg hb, if_neg hb]
    simp [pollEvents]

/-- The completion loop entered with `timeout = n + 1`: between 1 and `n + 1`
polls, the status it ends with is one of the values polled, and when no value
polled has the interrupt or the error bit it polls `n + 1` times. -/
theorem completionWait_polls (hw : Hw) (port : Nat) (n : Nat) : ∀ t : List Event,
    ∃ vs, (completionWait hw port ((n : Int) + 1) t).trace = t ++ pollEvents port vs ∧
      0 < vs.length ∧ vs.length ≤ n + 1 ∧
      (∀ v ∈ vs, ∃ h, v = hw.port h port % 256) ∧
      (completionWait hw port ((n : Int) + 1) t).status ∈ vs ∧
      ((∀ v ∈ vs, v &&& (SMBHSTSTAT_INTR ||| SMBHSTSTAT_ERROR) = 0) → vs.length = n + 1) := by
  induction n with
  | zero =>
    intro t
    rw [completionWait]
    refine ⟨[hw.port t port % 256], ?_⟩
    simp only [READ_PORT_UCHAR, KeStallExecutionProcessor]
    have hneg : ¬ (((0 : Nat) : Int) + 1 - 1 > 0) := by omega
    by_cases hc : hw.port t port % 256 &&& (SMBHSTSTAT_INTR ||| SMBHSTSTAT_ERROR) = 0
    · rw [if_pos hc, dif_neg hneg]
      refine ⟨by simp [pollEvents], by simp, by simp, ?_, by simp, by simp⟩
      intro v hv
      exact ⟨t, by simpa using hv⟩
    · rw [if_neg hc]
      refine ⟨by simp [pollEvents], by simp, by simp, ?_, by simp, by simp⟩
      intro v hv
      exact ⟨t, by simpa using hv⟩
  | succ n ih =>
    intro t
    rw [completionWait]
    simp only [READ_PORT_UCHAR, KeStallExecutionProcessor]
    by_cases hc : hw.port t port % 256 &&& (SMBHSTSTAT_INTR ||| SMBHSTSTAT_ERROR) = 0
    · have hpos : (((n + 1 : Nat) : Int) + 1 - 1 > 0) := by omega
      have heq : (((n + 1 : Nat) : Int) + 1 - 1) = (n : Int) + 1 := by omega
      obtain ⟨vs, h1, h2, h3, h4, h5, h6⟩ :=
        ih (t ++ [Event.rd port (hw.port t port % 256)] ++ [Event.stall 10])
      refine ⟨hw.port t port % 256 :: vs, ?_⟩
      rw [if_pos hc, dif_pos hpos, heq]
      refine ⟨by rw [h1]; simp [pollEvents], by simp, by simp [h3], ?_,
        List.mem_cons_of_mem _ h5, ?_⟩
      · intro v hv
        rcases List.mem_cons.mp hv with hv | hv
        · exact ⟨t, hv⟩
        · exact h4 v hv
      · intro hall
        have := h6 (fun v hv => hall v (List.mem_cons_of_mem _ hv))
        simp [this]
    · refine ⟨[hw.port t port % 256], ?_⟩
      rw [if_neg hc]
      refine ⟨by simp [pollEvents], by simp, by simp, ?_, by simp, ?_⟩
      · intro v hv
        exact ⟨t, by simpa using hv⟩
      · intro hall
        exact absurd (hall _ (List.mem_singleton_self _)) hc

/-! ## Claims about the polling budgets -/

/-- C16: for two machines that have the same physical memory and the same stack
content (so the unassigned local `status` holds the same byte) and answer port
reads in any two ways, the arbitration wait of a call started in the same
history ends with the same `timeout`, takes the same timeout-or-proceed
decision and makes the same number of status polls: 1000 when that byte has the
busy bit, 1 otherwise. -/
theorem arbitration_ignores_status (hw1 hw2 : Hw) (t : List Event)
    (hmem : hw1.physMem = hw2.physMem) (hstack : hw1.stack = hw2.stack) :
    (arbitration hw1 t).timeout = (arbitration hw2 t).timeout ∧
    ((arbitration hw1 t).timeout ≤ 0 ↔ (arbitration hw2 t).timeout ≤ 0) ∧
    ∃ vs1 vs2,
      (arbitration hw1 t).trace = afterResolve hw1 t ++ pollEvents (smbusBase hw1 t + SMBHSTSTAT) vs1 ∧
      (arbitration hw2 t).trace = afterResolve hw2 t ++ pollEvents (smbusBase hw2 t + SMBHSTSTAT) vs2 ∧
      vs1.length = vs2.length ∧
      vs1.length = (if hw1.stack (afterResolve hw1 t) % 256 &&& SMBHSTSTAT_BUSY ≠ 0 then 1000
        else 1) := by
  have hres : afterResolve hw1 t = afterResolve hw2 t := by
    unfold afterResolve ReadPhysicalMemory
    rw [hmem]
  have hst : hw1.stack (afterResolve hw1 t) % 256 = hw2.stack (afterResolve hw2 t) % 256 := by
    rw [hstack, hres]
  obtain ⟨vs1, a1, a2, a3⟩ := arbitrationWait_polls hw1 (smbusBase hw1 t + SMBHSTSTAT)
    (hw1.stack (afterResolve hw1 t) % 256) 999 (afterResolve hw1 t)
  obtain ⟨vs2, b1, b2, b3⟩ := arbitrationWait_polls hw2 (smbusBase hw2 t + SMBHSTSTAT)
    (hw2.stack (afterResolve hw2 t) % 256) 999 (afterResolve hw2 t)
  have e : ((999 : Nat) : Int) + 1 = 1000 := by norm_num
  rw [e] at a1 a3 b1 b3
  have ht : (arbitration hw1 t).timeout = (arbitration hw2 t).timeout := by
    unfold arbitration
    rw [a3, b3, hst]
  refine ⟨ht, by rw [ht], vs1, vs2, a1, b1, ?_, a2⟩
  rw [a2, b2, hst]

/-- C16 at a bus that always reads busy and a bus that never does, the local
holding 0 on both: both calls leave the arbitration wait after one poll. -/
theorem arbitration_ignores_status_witness :
    (arbitration (hwConst 0x01 0 0) []).timeout = (arbitration (hwConst 0x00 0 0) []).timeout ∧
    ((arbitration (hwConst 0x01 0 0) []).timeout ≤ 0 ↔
      (arbitration (hwConst 0x00 0 0) []).timeout ≤ 0) :=
  ⟨(arbitration_ignores_status (hwConst 0x01 0 0) (hwConst 0x00 0 0) [] rfl rfl).1,
    (arbitration_ignores_status (hwConst 0x01 0 0) (hwConst 0x00 0 0) [] rfl rfl).2.1⟩


/-- C17: for every machine, a call of `SmbusReadSPD` consists of the base
resolution, then at most the arbitration wait with between 1 and 1000 status
polls, then at most the four writes and the completion wait with between 1 and
1000 status polls of its own, then at most one read of `DAT0`; and when none of
the values polled by the completion wait has the interrupt bit or the error bit,
that wait polls 1000 times and the call returns `FALSE`. -/
theorem SmbusReadSPD_poll_budget (hw : Hw) (dimmAddr offset data : Nat) (t : List Event) :
    ∃ avs cvs,
      (arbitration hw t).trace
        = afterResolve hw t ++ pollEvents (smbusBase hw t + SMBHSTSTAT) avs ∧
      0 < avs.length ∧ avs.length ≤ 1000 ∧
      (completion hw dimmAddr offset t).trace
        = startTransaction (smbusBase hw t) dimmAddr offset (arbitration hw t).trace ++
            pollEvents (smbusBase hw t + SMBHSTSTAT) cvs ∧
      0 < cvs.length ∧ cvs.length ≤ 1000 ∧
      (∀ v ∈ cvs, ∃ h, v = hw.port h (smbusBase hw t + SMBHSTSTAT) % 256) ∧
      ((SmbusReadSPD hw dimmAddr offset data t).trace = afterResolve hw t ∨
        (SmbusReadSPD hw dimmAddr offset data t).trace = (arbitration hw t).trace ∨
        (SmbusReadSPD hw dimmAddr offset data t).trace = (completion hw dimmAddr offset t).trace ∨
        (SmbusReadSPD hw dimmAddr offset data t).trace
          = (completion hw dimmAddr offset t).trace ++
              [Event.rd (smbusBase hw t + SMBHSTDAT0)
                (SmbusReadSPD hw dimmAddr offset data t).data]) ∧
      ((∀ v ∈ cvs, v &&& SMBHSTSTAT_INTR = 0 ∧ v &&& SMBHSTSTAT_ERROR = 0) →
        cvs.length = 1000 ∧ (SmbusReadSPD hw dimmAddr offset data t).ok = false) := by
  obtain ⟨avs, a1, a2, -⟩ := arbitrationWait_polls hw (smbusBase hw t + SMBHSTSTAT)
    (hw.stack (afterResolve hw t) % 256) 999 (afterResolve hw t)
  obtain ⟨cvs, c1, c2, c3, c4, c5, c6⟩ := completionWait_polls hw (smbusBase hw t + SMBHSTSTAT) 999
    (startTransaction (smbusBase hw t) dimmAddr offset (arbitration hw t).trace)
  have e : ((999 : Nat) : Int) + 1 = 1000 := by norm_num
  rw [e] at a1 c1 c5
  have ha : 0 < avs.length ∧ avs.length ≤ 1000 := by
    rw [a2]
    split <;> omega
  refine ⟨avs, cvs, a1, ha.1, ha.2, c1, c2, c3, c4, ?_, ?_⟩
  · by_cases hbase : smbusBase hw t = 0
    · left
      unfold SmbusReadSPD
      rw [if_pos hbase]
    · by_cases hto : (arbitration hw t).timeout ≤ 0
      · right; left
        unfold SmbusReadSPD
        rw [if_neg hbase, if_pos hto]
      · have hgen := SmbusReadSPD_of_completion hw dimmAddr offset data t hbase (by omega)
        by_cases hc : (completion hw dimmAddr offset t).status &&& SMBHSTSTAT_INTR = 0 ∨
            (completion hw dimmAddr offset t).status &&& SMBHSTSTAT_ERROR ≠ 0
        · right; right; left
          rw [hgen.1 hc]
        · right; right; right
          rw [hgen.2 hc]
  · intro hall
    refine ⟨?_, ?_⟩
    · have h := c6 (fun v hv => by
        rw [Nat.and_or_distrib_left, (hall v hv).1, (hall v hv).2]
        rfl)
      omega
    · by_cases hbase : smbusBase hw t = 0
      · unfold SmbusReadSPD
        rw [if_pos hbase]
      · by_cases hto : (arbitration hw t).timeout ≤ 0
        · unfold SmbusReadSPD
          rw [if_neg hbase, if_pos hto]
        · have hgen := SmbusReadSPD_of_completion hw dimmAddr offset data t hbase (by omega)
          rw [hgen.1 (Or.inl (hall _ c5).1)]

/-- C17 at a bus whose status register always reads 0: the completion wait
uses its whole budget and the call fails. -/
theorem SmbusReadSPD_poll_budget_witness :
    (SmbusReadSPD (hwConst 0x00 0x5A 0) 0x50 0 0x77 []).ok = false :=
  (SmbusReadSPD_poll_budget (hwConst 0x00 0x5A 0) 0x50 0 0x77 []).elim (fun _ h1 =>
    h1.elim (fun cvs h2 =>
      (h2.2.2.2.2.2.2.2.2 (fun v hv =>
        (h2.2.2.2.2.2.2.1 v hv).elim (fun h hv2 => by
          rw [hv2, smbusBase_hwConst, hwConst_port]
          decide))).2))


/-! ## The body loop and the stored image -/

theorem bodyLoop_calls_grow (hw : Hw) (dimmAddr size : Nat) (m : Nat) :
    ∀ (j : Nat) (Data : List Nat) (s : Acq), size - j = m →
      ∃ rest, (bodyLoop hw dimmAddr size j Data s).st.calls = s.calls ++ rest := by
  induction m with
  | zero =>
    intro j Data s hm
    rw [bodyLoop, if_neg (by omega)]
    exact ⟨[], by simp⟩
  | succ m ih =>
    intro j Data s hm
    rw [bodyLoop, if_pos (by omega)]
    simp only []
    by_cases hok : (call hw dimmAddr (j % 256) (Data.getD j 0) s).ok = false
    · rw [if_pos hok]
      exact ⟨_, call_calls hw dimmAddr (j % 256) (Data.getD j 0) s⟩
    · rw [if_neg hok]
      obtain ⟨rest, hr⟩ := ih (j + 1)
        (Data.set j (call hw dimmAddr (j % 256) (Data.getD j 0) s).data)
        (call hw dimmAddr (j % 256) (Data.getD j 0) s).st (by omega)
      refine ⟨⟨dimmAddr, j % 256, (call hw dimmAddr (j % 256) (Data.getD j 0) s).ok,
        (call hw dimmAddr (j % 256) (Data.getD j 0) s).data⟩ :: rest, ?_⟩
      rw [hr, call_calls]
      simp

/-- The read the body loop issues at index `j` carries the offset `j mod 256`. -/
theorem bodyLoop_first (hw : Hw) (dimmAddr size j : Nat) (Data : List Nat) (s : Acq)
    (hj : j < size) :
    ∃ rest, (bodyLoop hw dimmAddr size j Data s).st.calls =
      s.calls ++ { dimmAddr := dimmAddr, offset := j % 256,
                   ok := (SmbusReadSPD hw dimmAddr (j % 256) (Data.getD j 0) s.bus).ok,
                   data := (SmbusReadSPD hw dimmAddr (j % 256) (Data.getD j 0) s.bus).data }
        :: rest := by
  rw [bodyLoop, if_pos hj]
  simp only []
  by_cases hok : (call hw dimmAddr (j % 256) (Data.getD j 0) s).ok = false
  · rw [if_pos hok]
    exact ⟨[], call_calls hw dimmAddr (j % 256) (Data.getD j 0) s⟩
  · rw [if_neg hok]
    obtain ⟨rest, hr⟩ := bodyLoop_calls_grow hw dimmAddr size (size - (j + 1)) (j + 1)
      (Data.set j (call hw dimmAddr (j % 256) (Data.getD j 0) s).data)
      (call hw dimmAddr (j % 256) (Data.getD j 0) s).st rfl
    refine ⟨rest, ?_⟩
    rw [hr, call_calls]
    simp [call_ok, call_data]

theorem replicate_getElem? (k : Nat) (hk : k < 512) :
    (List.replicate 512 0)[k]? = some 0 := by
  rw [List.getElem?_eq_getElem (by rw [List.length_replicate]; exact hk), List.getElem_replicate]

theorem byteAt_zero_image (sz sl : Nat) (v : Bool) (k : Nat) :
    byteAt ⟨List.replicate 512 0, sz, sl, v⟩ k = 0 := by
  unfold byteAt
  rw [List.getD_eq_getElem?_getD]
  by_cases hk : k < 512
  · rw [replicate_getElem? k hk]
    rfl
  · rw [List.getElem?_eq_none (by rw [List.length_replicate]; omega)]
    rfl

/-! ## Claims about the stored image -/

/-- C18 (evaluation at a failing input): on a machine where every read succeeds
and the module delivers `0x5A` at every offset (a read at offset 4 succeeds with
`0x5A` whenever issued), `ReadAllSPD` issues for slot 0 only the reads at
offsets 0 to 3, and the stored `Data[4]` is 0, not the module's byte.  Moreover
the read the body loop issues at index 256 for a `Size` of 512 carries the
offset byte 0, not 256. -/
theorem ReadAllSPD_offsets_not_read :
    (∀ (d : Nat) (t : List Event), (SmbusReadSPD (hwGood 0x5A) 0x50 4 d t).ok = true ∧
      (SmbusReadSPD (hwGood 0x5A) 0x50 4 d t).data = 0x5A) ∧
    slotCalls (hwGood 0x5A) outBuffer emptyAcq 0 =
      [⟨0x50, 0, true, 0x5A⟩, ⟨0x50, 1, true, 0x5A⟩, ⟨0x50, 2, true, 0x5A⟩,
       ⟨0x50, 3, true, 0x5A⟩] ∧
    ((ReadAllSPD (hwGood 0x5A) outBuffer emptyAcq).1[0]?).map (fun e => byteAt e 4) = some 0 ∧
    ∃ rest, (bodyLoop (hwGood 0x5A) 0x50 512 256 (List.replicate 512 0) emptyAcq).st.calls
      = ⟨0x50, 0, true, 0x5A⟩ :: rest := by
  refine ⟨?_, ?_, ?_, ?_⟩
  · intro d t
    unfold hwGood
    rw [SmbusReadSPD_hwSel_ok, SmbusReadSPD_hwSel_data]
    exact ⟨rfl, rfl⟩
  · simp only [slotCalls, stateBefore, ReadAllSPD_iter, readSlot, call, hwGood,
      SmbusReadSPD_hwSel_ok, SmbusReadSPD_hwSel_data, bodyLoop_empty, emptyAcq, size_stored,
      Bool.true_eq_false, if_false, if_true, List.length_nil, List.drop_zero, List.nil_append,
      List.append_assoc, List.singleton_append, Nat.reduceMod]
    rfl
  · rw [entry_stored _ _ _ 0 (by decide) (by decide)]
    simp only [Option.map_some', byteAt]
    rw [List.getD_eq_getElem?_getD, replicate_getElem? 4 (by decide)]
    rfl
  · obtain ⟨rest, hr⟩ := bodyLoop_first (hwGood 0x5A) 0x50 512 256 (List.replicate 512 0)
      emptyAcq (by decide)
    refine ⟨rest, ?_⟩
    rw [hr]
    unfold hwGood
    rw [SmbusReadSPD_hwSel_ok, SmbusReadSPD_hwSel_data]
    rfl

/-- C19: for every machine and every slot, the `Size` stored is 0 because both
512 and 256 are 0 modulo 256 in the 8-bit field; the calls of the slot are at
most four, at offsets 0, 1, .. (the header reads; no body read is issued); the
stored buffer is all zero, so no header byte is kept in it; and when the four
header reads succeed the slot is stored with `Valid = TRUE`. -/
theorem ReadAllSPD_size_always_zero (hw : Hw) (spdData : List SPD_DATA) (s : Acq) (i : Nat)
    (hlen : 8 ≤ spdData.length) (hi : i < 8) :
    (∀ b : Nat, (if b = 0x0C then 512 else 256) % 256 = 0) ∧
    (slotCalls hw spdData s i).length ≤ 4 ∧
    (slotCalls hw spdData s i).map Call.offset = List.range (slotCalls hw spdData s i).length ∧
    ∃ e, (ReadAllSPD hw spdData s).1[i]? = some e ∧ e.Size = 0 ∧
      e.Data = List.replicate 512 0 ∧
      (((slotCalls hw spdData s i).length = 4 ∧ ∀ c ∈ slotCalls hw spdData s i, c.ok = true) →
        e.Valid = true) := by
  obtain ⟨-, -, h3, h4, -, -, h7, -, -⟩ := slotCalls_spec hw spdData s i
  refine ⟨size_stored, h3, h4, _, entry_stored hw spdData s i hlen hi, rfl, rfl, ?_⟩
  intro hall
  exact h7.mpr hall.2

/-- C19 at a machine where every header read succeeds and delivers `0x0C`. -/
theorem ReadAllSPD_size_always_zero_witness :
    8 ≤ outBuffer.length ∧ 0 < 8 ∧
    ∃ e, (ReadAllSPD (hwGood 0x0C) outBuffer emptyAcq).1[0]? = some e ∧ e.Size = 0 ∧
      e.Data = List.replicate 512 0 ∧
      (((slotCalls (hwGood 0x0C) outBuffer emptyAcq 0).length = 4 ∧
        ∀ c ∈ slotCalls (hwGood 0x0C) outBuffer emptyAcq 0, c.ok = true) → e.Valid = true) :=
  ⟨by decide, by decide,
    (ReadAllSPD_size_always_zero (hwGood 0x0C) outBuffer emptyAcq 0 (by decide)
      (by decide)).2.2.2⟩

/-- C20: for every machine and every slot of the output, each buffer byte at an
index at or beyond the number of successful body reads of that slot is 0; and
when the stored length is at most 320, byte 320 is 0 and `PrintSPDSummary`
reports the manufacturer as "Not specified". -/
theorem ReadAllSPD_unread_bytes_zero (hw : Hw) (spdData : List SPD_DATA) (s : Acq) (i : Nat)
    (hlen : 8 ≤ spdData.length) (hi : i < 8) :
    ∃ e, (ReadAllSPD hw spdData s).1[i]? = some e ∧
      (∀ k, (((slotCalls hw spdData s i).drop 4).filter (fun c => c.ok)).length ≤ k → k < 512 →
        e.Data[k]? = some 0) ∧
      (e.Size ≤ 320 → byteAt e 320 = 0 ∧
        (summaryFields e).manufacturer = "Not specified" ∧
        ∀ (opens : Bool) (fs : Files),
          (PrintSPDSummary opens fs e).text
            = "\nDIMM Slot: " ++ toString (summaryFields e).slot ++ "\n" ++
              "DDR Type: " ++ (summaryFields e).ddrType ++ "\n" ++
              "Size: " ++ toString (summaryFields e).sizeMB ++ " MB\n" ++
              "Manufacturer: " ++ "Not specified" ++ "\n" ++
              "SPD Timings: tCL=" ++ toString (summaryFields e).tCL ++ " tRCD=" ++
                toString (summaryFields e).tRCD ++ " tRP=" ++ toString (summaryFields e).tRP ++
                " tRAS=" ++ toString (summaryFields e).tRAS ++ "\n" ++
              (if opens then "SPD saved to " ++ artifactName e ++ "\n" else "")) := by
  refine ⟨_, entry_stored hw spdData s i hlen hi, ?_, ?_⟩
  · intro k _ hk
    exact replicate_getElem? k hk
  · intro _
    have h320 := byteAt_zero_image 0 i (readSlot hw i (stateBefore hw spdData s i)).1.Valid 320
    have hm := (manufacturerText_eq _).mpr h320
    refine ⟨h320, hm, ?_⟩
    intro opens fs
    have hm2 : (summaryFields ⟨List.replicate 512 0, 0, i,
        (readSlot hw i (stateBefore hw spdData s i)).1.Valid⟩).manufacturer
        = "Not specified" := hm
    simp only [PrintSPDSummary, hm2]

/-- C20 at a machine where every read succeeds and delivers `0xFF`: slot 0 is
reported with manufacturer "Not specified". -/
theorem ReadAllSPD_unread_bytes_zero_witness :
    8 ≤ outBuffer.length ∧ 0 < 8 ∧
    ∃ e, (ReadAllSPD (hwGood 0xFF) outBuffer emptyAcq).1[0]? = some e ∧
      e.Size ≤ 320 ∧ (summaryFields e).manufacturer = "Not specified" := by
  obtain ⟨e, he, -, hm⟩ :=
    ReadAllSPD_unread_bytes_zero (hwGood 0xFF) outBuffer emptyAcq 0 (by decide) (by decide)
  have hs : e.Size ≤ 320 := by
    rw [entry_stored _ _ _ 0 (by decide) (by decide)] at he
    cases he
    exact Nat.zero_le _
  exact ⟨by decide, by decide, e, he, hs, (hm hs).2.1⟩


/-! ## Validity against the reads a module would answer -/

/-- When the outcome of a read of the slot's slave depends on the offset only,
the validity flag stored by one iteration is the conjunction of the outcomes at
offsets 0 to 3: the body reads do not enter. -/
theorem readSlot_valid_of_ok (hw : Hw) (g : Nat → Bool) (i : Nat) (s : Acq)
    (h : ∀ (o d : Nat) (t : List Event),
      (SmbusReadSPD hw (spdAddresses.getD i 0) o d t).ok = g o) :
    (readSlot hw i s).1.Valid = (g 0 && g 1 && g 2 && g 3) := by
  unfold readSlot
  simp only [call, h, size_stored, bodyLoop_empty]
  cases g 0 <;> cases g 1 <;> cases g 2 <;> cases g 3 <;> rfl

/-- When the four header reads of a slot succeed and deliver `dat`, the calls of
the iteration are these four reads and nothing else. -/
theorem readSlot_calls_of_ok (hw : Hw) (dat i : Nat) (s : Acq)
    (h : ∀ (o d : Nat) (t : List Event), o < 4 →
      (SmbusReadSPD hw (spdAddresses.getD i 0) o d t).ok = true ∧
      (SmbusReadSPD hw (spdAddresses.getD i 0) o d t).data = dat) :
    (readSlot hw i s).2.calls = s.calls ++
      [⟨spdAddresses.getD i 0, 0, true, dat⟩, ⟨spdAddresses.getD i 0, 1, true, dat⟩,
       ⟨spdAddresses.getD i 0, 2, true, dat⟩, ⟨spdAddresses.getD i 0, 3, true, dat⟩] := by
  have k0 : ∀ d t, (SmbusReadSPD hw (spdAddresses.getD i 0) 0 d t).ok = true :=
    fun d t => (h 0 d t (by decide)).1
  have k1 : ∀ d t, (SmbusReadSPD hw (spdAddresses.getD i 0) 1 d t).ok = true :=
    fun d t => (h 1 d t (by decide)).1
  have k2 : ∀ d t, (SmbusReadSPD hw (spdAddresses.getD i 0) 2 d t).ok = true :=
    fun d t => (h 2 d t (by decide)).1
  have k3 : ∀ d t, (SmbusReadSPD hw (spdAddresses.getD i 0) 3 d t).ok = true :=
    fun d t => (h 3 d t (by decide)).1
  have d0 : ∀ d t, (SmbusReadSPD hw (spdAddresses.getD i 0) 0 d t).data = dat :=
    fun d t => (h 0 d t (by decide)).2
  have d1 : ∀ d t, (SmbusReadSPD hw (spdAddresses.getD i 0) 1 d t).data = dat :=
    fun d t => (h 1 d t (by decide)).2
  have d2 : ∀ d t, (SmbusReadSPD hw (spdAddresses.getD i 0) 2 d t).data = dat :=
    fun d t => (h 2 d t (by decide)).2
  have d3 : ∀ d t, (SmbusReadSPD hw (spdAddresses.getD i 0) 3 d t).data = dat :=
    fun d t => (h 3 d t (by decide)).2
  unfold readSlot
  simp only [call, k0, k1, k2, k3, d0, d1, d2, d3, size_stored, bodyLoop_empty,
    Bool.true_eq_false, if_false, List.append_assoc, List.singleton_append, List.cons_append,
    List.nil_append]

/-- C8 (evaluation at a failing input): on a machine where every module answers
the reads at offsets 0 to 3 and every read at an offset from 4 to 255 fails
whenever it is issued, to whatever address, `ReadAllSPD` stores all eight slots
with `Valid = TRUE` (and `Size = 0`, zero buffer); the reads issued for slave
`0x55` are the four header reads only.  On the machine of the claim's scenario
(slaves `0x50` to `0x53` answer every read, slaves `0x54` to `0x57` none) the
entries 0 to 3 are stored valid and the entries 4 to 7 invalid with `Size = 0`. -/
theorem ReadAllSPD_valid_with_failing_body :
    (∀ (a d : Nat) (t : List Event) (k : Fin 252),
      (SmbusReadSPD hwBody a (k.val + 4) d t).ok = false) ∧
    (∀ i : Fin 8, (ReadAllSPD hwBody outBuffer emptyAcq).1[i.val]?
      = some ⟨List.replicate 512 0, 0, i.val, true⟩) ∧
    slotCalls hwBody outBuffer emptyAcq 5 =
      [⟨0x55, 0, true, 0x0C⟩, ⟨0x55, 1, true, 0x0C⟩, ⟨0x55, 2, true, 0x0C⟩,
       ⟨0x55, 3, true, 0x0C⟩] ∧
    (∀ i : Fin 8, (ReadAllSPD hwHalf outBuffer emptyAcq).1[i.val]?
      = some ⟨List.replicate 512 0, 0, i.val, decide (i.val < 4)⟩) := by
  refine ⟨?_, ?_, ?_, ?_⟩
  · intro a d t k
    unfold hwBody
    rw [SmbusReadSPD_hwSel_ok]
    have hk := k.isLt
    have h1 : (k.val + 4) % 256 = k.val + 4 := Nat.mod_eq_of_lt (by omega)
    rw [h1]
    simp only [decide_eq_false_iff_not]
    omega
  · intro i
    rw [entry_stored _ _ _ i.val (by decide) i.isLt]
    rw [readSlot_valid_of_ok hwBody (fun o => decide (o % 256 < 4)) i.val _
      (fun o d t => by unfold hwBody; rw [SmbusReadSPD_hwSel_ok])]
    rfl
  · unfold slotCalls
    rw [readSlot_calls_of_ok hwBody 0x0C 5 _ (fun o d t ho => by
      unfold hwBody
      rw [SmbusReadSPD_hwSel_ok, SmbusReadSPD_hwSel_data]
      have h1 : o % 256 = o := Nat.mod_eq_of_lt (by omega)
      rw [h1]
      simp only [decide_eq_true ho, if_true]
      exact ⟨trivial, trivial⟩), List.drop_left]
    rfl
  · intro i
    rw [entry_stored _ _ _ i.val (by decide) i.isLt]
    rw [readSlot_valid_of_ok hwHalf
      (fun _ => decide ((((spdAddresses.getD i.val 0 <<< 1) ||| 0x01) % 256) < 0xA9)) i.val _
      (fun o d t => by unfold hwHalf; rw [SmbusReadSPD_hwSel_ok])]
    have hi := i.isLt
    have hv : ∀ j, j < 8 → ((decide ((((spdAddresses.getD j 0 <<< 1) ||| 0x01) % 256) < 0xA9) &&
        decide ((((spdAddresses.getD j 0 <<< 1) ||| 0x01) % 256) < 0xA9) &&
        decide ((((spdAddresses.getD j 0 <<< 1) ||| 0x01) % 256) < 0xA9) &&
        decide ((((spdAddresses.getD j 0 <<< 1) ||| 0x01) % 256) < 0xA9)) = decide (j < 4)) := by
      intro j hj
      interval_cases j <;> rfl
    rw [hv i.val hi]

end HardwareMonitor
